import Mathlib

/-!
Verification development for the SillyTavern character-card plugin:
a PNG metadata codec (character-card codec module), a schema-flexible
JSON-to-lorebook mapper (json_to_lorebook_yaml.py) and the character-summary
extractor (main.py).

The embedding is shallow: Python JSON values are modelled by the inductive
type `PyVal` (numbers as rationals: exact for the integer and decimal-literal
arithmetic the mapper performs; IEEE rounding and non-finite floats are not
modelled, no property below depends on them), byte strings by `List Nat`
with values below 256, and Python exceptions by explicit result types
(`Except`, `Option`, dedicated constructors) placed exactly where the
source has its try/except boundaries.
-/

/-! ## Python-style values (the JSON universe shared by codec and mapper) -/

inductive PyVal where
  | null
  | bool (b : Bool)
  | int (n : Int)
  | float (q : ℚ)
  | str (s : String)
  | list (xs : List PyVal)
  | dict (kvs : List (String × PyVal))

def digitCh (m : Nat) : Char :=
  match m % 10 with
  | 0 => '0' | 1 => '1' | 2 => '2' | 3 => '3' | 4 => '4'
  | 5 => '5' | 6 => '6' | 7 => '7' | 8 => '8' | _ => '9'

/-- Decimal digits of a natural number, most significant first. -/
def natDigitsAux (n : Nat) (acc : List Char) : List Char :=
  if h : n = 0 then acc
  else natDigitsAux (n / 10) (digitCh n :: acc)
termination_by n
decreasing_by exact Nat.div_lt_self (Nat.pos_of_ne_zero h) (by decide)

def natStr (n : Nat) : String :=
  if n = 0 then "0" else String.mk (natDigitsAux n [])

def intStr (n : Int) : String :=
  match n with
  | .ofNat m => natStr m
  | .negSucc m => "-" ++ natStr (m + 1)

/-- Idealized rendering of a model float.  Python's `str`/`repr` of a float
prints a shortest-roundtrip decimal; no claim below depends on the exact
text, only on it being some fixed function of the value. -/
def ratStr (q : ℚ) : String :=
  if q.den = 1 then intStr q.num ++ ".0" else intStr q.num ++ "/" ++ natStr q.den

/-- Python truthiness (`bool(v)`) on the modelled JSON universe. -/
def pyTruthy : PyVal → Bool
  | .null => false
  | .bool b => b
  | .int n => !(n == 0)
  | .float q => !(q == 0)
  | .str s => !s.isEmpty
  | .list xs => !xs.isEmpty
  | .dict kvs => !kvs.isEmpty

/-- First-match association lookup: `k in d` / `d[k]` / `d.get(k)` on a
Python dict (which `json.loads` materializes with unique keys, so
first-match agrees with it). -/
def dictLookup (kvs : List (String × PyVal)) (k : String) : Option PyVal :=
  match kvs with
  | [] => Option.none
  | (k1, v) :: rest => if k1 = k then some v else dictLookup rest k

/-- `d.get(k, default)`. -/
def dGet (kvs : List (String × PyVal)) (k : String) (d : PyVal) : PyVal :=
  (dictLookup kvs k).getD d

def hasKey (kvs : List (String × PyVal)) (k : String) : Bool :=
  (dictLookup kvs k).isSome

/-- `d[k] = v` on a Python dict: replace in place if the key exists,
else append at the end (insertion order preserved). -/
def setAssoc (kvs : List (String × PyVal)) (k : String) (v : PyVal) :
    List (String × PyVal) :=
  match kvs with
  | [] => [(k, v)]
  | (k1, v1) :: rest => if k1 = k then (k, v) :: rest else (k1, v1) :: setAssoc rest k v

def singleQuoteS : String := String.mk [Char.ofNat 39]

mutual
/-- Python `repr` on the modelled universe.  Reached only when the mapper
stringifies a container or scalar (f-string ids, key coercion); string
escaping subtleties of `repr` are not exercised by any claim. -/
def pyRepr : PyVal → String
  | .null => "None"
  | .bool b => if b then "True" else "False"
  | .int n => intStr n
  | .float q => ratStr q
  | .str s => singleQuoteS ++ s ++ singleQuoteS
  | .list xs => "[" ++ String.intercalate ", " (pyReprElems xs) ++ "]"
  | .dict kvs => String.mk ['\x7b'] ++ String.intercalate ", " (pyReprKVs kvs) ++ String.mk ['\x7d']
def pyReprElems : List PyVal → List String
  | [] => []
  | x :: rest => pyRepr x :: pyReprElems rest
def pyReprKVs : List (String × PyVal) → List String
  | [] => []
  | (k, v) :: rest => (singleQuoteS ++ k ++ singleQuoteS ++ ": " ++ pyRepr v) :: pyReprKVs rest
end

/-- Python `str(v)`. -/
def pyStr : PyVal → String
  | .str s => s
  | v => pyRepr v

/-! ## Mapper: LoreBookConverter (json_to_lorebook_yaml.py) -/

/-- Character-level body of `quote_value`: escape inner double quotes as
backslash-quote, newlines as backslash-n, and remove carriage returns.
The source performs three sequential `str.replace` calls whose targets and
outputs do not overlap, so a single pass is extensionally identical. -/
def escapeQV : List Char → List Char
  | [] => []
  | c :: rest =>
    if c = '"' then '\\' :: '"' :: escapeQV rest
    else if c = '\n' then '\\' :: 'n' :: escapeQV rest
    else if c = '\r' then escapeQV rest
    else c :: escapeQV rest

/-- `quote_value` on a string: escape and wrap in double quotes. -/
def quoteStr (s : String) : String :=
  "\"" ++ String.mk (escapeQV s.data) ++ "\""

/-- `LoreBookConverter.quote_value`: strings are escaped and quoted,
non-strings returned as is. -/
def quote_value : PyVal → PyVal
  | .str s => .str (quoteStr s)
  | v => v

/-- `LoreBookConverter.clean_content`: replace tabs by two spaces in
strings, return non-strings as is. -/
def clean_content : PyVal → PyVal
  | .str s => .str (String.mk (s.data.flatMap (fun c => if c = '\t' then [' ', ' '] else [c])))
  | v => v

/-- Result of `convert_position`: either the mapped string or the
`TypeError` that `dict.get` raises on an unhashable key. -/
inductive PosResult where
  | ok (s : String)
  | typeErr

/-- `LoreBookConverter.convert_position`: `position_map.get(pos_value, default)`
with keys `0`, `1`, `"0"`, `"1"`, `"after_char"`, `"before_char"`,
`"before_prompt"`, `"after_prompt"` and default `"sys_start"`.  Python dict
lookup uses `==`, under which `True == 1`, `False == 0` and `1.0 == 1`;
lists and dicts are unhashable and raise `TypeError`. -/
def convert_position : PyVal → PosResult
  | .list _ => .typeErr
  | .dict _ => .typeErr
  | .int n => .ok (if n = 0 then "sys_start" else if n = 1 then "sys_end" else "sys_start")
  | .float q => .ok (if q = 0 then "sys_start" else if q = 1 then "sys_end" else "sys_start")
  | .bool b => .ok (if b then "sys_end" else "sys_start")
  | .null => .ok "sys_start"
  | .str s =>
    .ok (if s = "0" then "sys_start"
      else if s = "1" then "sys_end"
      else if s = "after_char" then "sys_start"
      else if s = "before_char" then "sys_start"
      else if s = "before_prompt" then "sys_start"
      else if s = "after_prompt" then "sys_end"
      else "sys_start")

def isDigitCh (c : Char) : Bool := 48 ≤ c.toNat && c.toNat ≤ 57

def digVal (c : Char) : Nat := c.toNat - 48

def natOfDigits (l : List Char) : Nat := l.foldl (fun a c => a * 10 + digVal c) 0

def isSpaceCh (c : Char) : Bool :=
  c = ' ' || c = '\t' || c = '\n' || c = '\r' || c.toNat = 11 || c.toNat = 12

/-- Mantissa of a Python float literal: digits, optionally with one decimal
point, at least one digit in total. -/
def parseMantissa (l : List Char) : Option ℚ :=
  let ip := l.takeWhile isDigitCh
  let rest := l.dropWhile isDigitCh
  match rest with
  | [] => if ip.isEmpty then Option.none else some (natOfDigits ip)
  | '.' :: rest2 =>
    let fp := rest2.takeWhile isDigitCh
    if !(rest2.dropWhile isDigitCh).isEmpty then Option.none
    else if ip.isEmpty && fp.isEmpty then Option.none
    else some ((natOfDigits (ip ++ fp) : ℚ) / (10 ^ fp.length))
  | _ => Option.none

def parseExpPart (l : List Char) : Option Int :=
  let (sgn, l2) : Int × List Char :=
    match l with
    | '+' :: r => (1, r)
    | '-' :: r => (-1, r)
    | r => (1, r)
  if l2.isEmpty || !(l2.all isDigitCh) then Option.none
  else some (sgn * natOfDigits l2)

/-- Split a char list at the first `e`/`E`, if any. -/
def splitExpChar : List Char → List Char × Option (List Char)
  | [] => ([], Option.none)
  | c :: rest =>
    if c = 'e' || c = 'E' then ([], some rest)
    else
      let (m, e) := splitExpChar rest
      (c :: m, e)

/-- Model of Python `float(s)` restricted to finite decimal literals
(optional surrounding whitespace, optional sign, digits with optional
decimal point and exponent).  Python additionally accepts `inf`/`nan`
spellings and digit-group underscores, which have no rational counterpart
and are exercised by no claim. -/
def strToFloat (s : String) : Option ℚ :=
  let l := ((s.data.dropWhile isSpaceCh).reverse.dropWhile isSpaceCh).reverse
  let (sgn, l2) : ℚ × List Char :=
    match l with
    | '+' :: r => (1, r)
    | '-' :: r => (-1, r)
    | r => (1, r)
  match splitExpChar l2 with
  | (m, Option.none) => (parseMantissa m).map (fun q => sgn * q)
  | (m, some e) =>
    match parseMantissa m, parseExpPart e with
    | some q, some ex => some (sgn * q * (10 : ℚ) ^ ex)
    | _, _ => Option.none

/-- Outcome of the numeric-coercion idiom used for `insertion_order` and
`extensions.probability`: `isinstance(v, (int, float))` keeps the value
(`bool` is an `int` instance in Python), a string is passed to `float`
with `except ValueError` defaulting to 100, and every other type makes
`float(v)` raise a `TypeError` that the `except ValueError` clause does
NOT catch. -/
inductive NumCoerce where
  | ok (q : ℚ)
  | typeErr

def pyFloatCoerce : PyVal → NumCoerce
  | .int n => .ok n
  | .float q => .ok q
  | .bool b => .ok (if b then 1 else 0)
  | .str s =>
    match strToFloat s with
    | some q => .ok q
    | Option.none => .ok 100
  | _ => .typeErr

/-- `list(v)` for the modelled universe: lists iterate to themselves,
dicts to their key list, strings to their characters; scalars raise
`TypeError` (modelled as `Option.none`). -/
def pyIterList : PyVal → Option (List PyVal)
  | .list xs => some xs
  | .dict kvs => some (kvs.map (fun kv => PyVal.str kv.1))
  | .str s => some (s.data.map (fun c => PyVal.str (String.mk [c])))
  | _ => Option.none

/-- `process_match`'s primary-key coercion: a string is wrapped in a
singleton list, a list kept, anything else goes through `list(...)` with a
bare `except` falling back to `[str(keys)]`. -/
def toKeyListPrimary (v : PyVal) : List PyVal :=
  match v with
  | .str s => [.str s]
  | .list xs => xs
  | v =>
    match pyIterList v with
    | some xs => xs
    | Option.none => [.str (pyStr v)]

/-- `process_match`'s secondary-key coercion: a string is wrapped, a list
kept, a truthy non-list goes through `list(...)` with fallback, and a
falsy non-list is left untouched (the `elif keysecondary and ...` guard). -/
def coerceSecondary (v : PyVal) : PyVal :=
  match v with
  | .str s => .list [.str s]
  | .list xs => .list xs
  | v =>
    if pyTruthy v then
      match pyIterList v with
      | some xs => .list xs
      | Option.none => .list [.str (pyStr v)]
    else v

/-- `"&".join(str(k) for k in ks if k)`. -/
def joinAmp (xs : List PyVal) : String :=
  String.intercalate "&" ((xs.filter pyTruthy).map pyStr)

/-- The `&`-joined primary part of `process_match`. -/
def matchPrimary (keys : PyVal) : String := joinAmp (toKeyListPrimary keys)

/-- The `&`-joined secondary part of `process_match`: `""` unless the
coerced `keysecondary` is truthy (a non-empty list after coercion). -/
def matchSecondary (keysecondary : PyVal) : String :=
  match coerceSecondary keysecondary with
  | .list xs => if xs.isEmpty then "" else joinAmp xs
  | _ => ""

/-- `LoreBookConverter.process_match`. -/
def process_match (keys keysecondary : PyVal) : String :=
  if pyTruthy keys = false then ""
  else
    let primary := matchPrimary keys
    let secondary := matchSecondary keysecondary
    if primary ≠ "" ∧ secondary ≠ "" then primary ++ "~" ++ secondary else primary

/-- A normalized trigger record as built by `process_entry`.  The string
fields already carry the `quote_value` quoting; `name` and `content` keep
their Python type (`quote_value` passes non-strings through). -/
structure Trigger where
  name : PyVal
  ttype : String
  matchVal : String
  conditional : String
  priority : ℚ
  block : Bool
  probability : ℚ
  position : String
  content : PyVal

/-- Outcome of the body of `process_entry`'s try block: a built trigger,
an explicit `return None` (non-dict entry or disabled entry), or an
exception reaching the enclosing `except Exception` handler. -/
inductive EntryResult where
  | trigger (t : Trigger)
  | skipped
  | exn

/-- The try-block body of `LoreBookConverter.process_entry`, statement by
statement: name default, match, position, content, insertion_order
coercion (TypeError escapes), extensions lookup (`.get` on a non-dict
raises AttributeError), probability coercion, enabled check, quoting,
trigger construction. -/
def processEntryBody (entry_id : PyVal) (entry : PyVal) : EntryResult :=
  match entry with
  | .dict kvs =>
    let rawName := dGet kvs "comment" (.str ("entry_" ++ pyStr entry_id))
    let keys := dGet kvs "keys" (.list [])
    let ksec := dGet kvs "secondary_keys" (.list [])
    let rawMatch := process_match keys ksec
    match convert_position (dGet kvs "position" (.str "after_char")) with
    | .typeErr => .exn
    | .ok rawPos =>
      let rawContent := clean_content (dGet kvs "content" (.str ""))
      match pyFloatCoerce (dGet kvs "insertion_order" (.int 100)) with
      | .typeErr => .exn
      | .ok entryOrder =>
        let priority := 100 - entryOrder
        match dGet kvs "extensions" (.dict []) with
        | .dict ekvs =>
          let block := pyTruthy (dGet ekvs "prevent_recursion" (.bool false))
          match pyFloatCoerce (dGet ekvs "probability" (.int 100)) with
          | .typeErr => .exn
          | .ok praw =>
            let prob := max 0 (min praw 100) / 100
            if pyTruthy (dGet kvs "enabled" (.bool true)) then
              .trigger
                { name := quote_value rawName
                  ttype := quoteStr "keywords"
                  matchVal := quoteStr rawMatch
                  conditional := quoteStr ""
                  priority := priority
                  block := block
                  probability := prob
                  position := quoteStr rawPos
                  content := quote_value rawContent }
            else .skipped
        | _ => .exn
  | _ => .skipped

/-- `LoreBookConverter.process_entry`: the try/except wrapper mapping every
non-trigger outcome (skip or caught exception) to `None`. -/
def process_entry (entry_id : PyVal) (entry : PyVal) : Option Trigger :=
  match processEntryBody entry_id entry with
  | .trigger t => some t
  | _ => Option.none

/-! ## json.dumps models -/

def hexDig (n : Nat) : Char :=
  match n % 16 with
  | 0 => '0' | 1 => '1' | 2 => '2' | 3 => '3' | 4 => '4' | 5 => '5' | 6 => '6'
  | 7 => '7' | 8 => '8' | 9 => '9' | 10 => 'a' | 11 => 'b' | 12 => 'c'
  | 13 => 'd' | 14 => 'e' | _ => 'f'

def uEsc4 (n : Nat) : List Char :=
  ['\\', 'u', hexDig (n / 4096), hexDig (n / 256), hexDig (n / 16), hexDig n]

/-- Per-character escaping of `json.dumps` with the default
`ensure_ascii=True`: the shorthand escapes, `uXXXX` (with surrogate
pairs above the BMP) for all other characters outside `0x20`..`0x7e`. -/
def escJsonAsciiChar (c : Char) : List Char :=
  if c = '"' then ['\\', '"']
  else if c = '\\' then ['\\', '\\']
  else if c = '\n' then ['\\', 'n']
  else if c = '\r' then ['\\', 'r']
  else if c = '\t' then ['\\', 't']
  else if c.toNat = 8 then ['\\', 'b']
  else if c.toNat = 12 then ['\\', 'f']
  else if c.toNat < 32 ∨ c.toNat > 126 then
    if c.toNat ≥ 65536 then
      uEsc4 (55296 + (c.toNat - 65536) / 1024) ++ uEsc4 (56320 + (c.toNat - 65536) % 1024)
    else uEsc4 c.toNat
  else [c]

def dumpJStr (s : String) : List Char :=
  '"' :: s.data.flatMap escJsonAsciiChar ++ ['"']

/-- Number rendering for the dump models.  Integers match Python exactly;
model floats use the idealized `ratStr` (see there). -/
def dumpNum : PyVal → List Char
  | .int n => (intStr n).data
  | .float q => (ratStr q).data
  | _ => []

mutual
/-- `json.dumps(v)` with default arguments (`ensure_ascii=True`,
separators `", "` and `": "`), as used when building the `ccv3` payload. -/
def dumpVal : PyVal → List Char
  | .null => "null".data
  | .bool b => if b then "true".data else "false".data
  | .int n => (intStr n).data
  | .float q => (ratStr q).data
  | .str s => dumpJStr s
  | .list xs => '[' :: dumpElems xs ++ [']']
  | .dict kvs => '\x7b' :: dumpMembers kvs ++ ['\x7d']
def dumpElems : List PyVal → List Char
  | [] => []
  | [x] => dumpVal x
  | x :: y :: rest => dumpVal x ++ ',' :: ' ' :: dumpElems (y :: rest)
def dumpMembers : List (String × PyVal) → List Char
  | [] => []
  | [(k, v)] => dumpJStr k ++ ':' :: ' ' :: dumpVal v
  | (k, v) :: m :: rest => dumpJStr k ++ ':' :: ' ' :: dumpVal v ++ ',' :: ' ' :: dumpMembers (m :: rest)
end

/-- UTF-8 bytes of the default-arguments dump (pure ASCII by
construction, so the byte值 are the character codes). -/
def dumpBytes (v : PyVal) : List Nat := (dumpVal v).map Char.toNat

/-- Per-character escaping of `json.dumps` with `ensure_ascii=False`:
only the shorthand escapes and `uXXXX` for remaining control characters;
non-ASCII characters pass through. -/
def escJsonRawChar (c : Char) : List Char :=
  if c = '"' then ['\\', '"']
  else if c = '\\' then ['\\', '\\']
  else if c = '\n' then ['\\', 'n']
  else if c = '\r' then ['\\', 'r']
  else if c = '\t' then ['\\', 't']
  else if c.toNat = 8 then ['\\', 'b']
  else if c.toNat = 12 then ['\\', 'f']
  else if c.toNat < 32 then uEsc4 c.toNat
  else [c]

def dumpJStrRaw (s : String) : List Char :=
  '"' :: s.data.flatMap escJsonRawChar ++ ['"']

def indentOf (lvl : Nat) : List Char := List.replicate (2 * lvl) ' '

mutual
/-- `json.dumps(v, ensure_ascii=False, indent=2)`, used for the content of
the mapper's case-5 default entry. -/
def dumpsP (lvl : Nat) : PyVal → List Char
  | .null => "null".data
  | .bool b => if b then "true".data else "false".data
  | .int n => (intStr n).data
  | .float q => (ratStr q).data
  | .str s => dumpJStrRaw s
  | .list [] => "[]".data
  | .list (x :: xs) =>
    '[' :: '\n' :: indentOf (lvl + 1) ++ dumpsPElems (lvl + 1) x xs ++ '\n' :: indentOf lvl ++ [']']
  | .dict [] => "\x7b\x7d".data
  | .dict ((k, v) :: kvs) =>
    '\x7b' :: '\n' :: indentOf (lvl + 1) ++ dumpsPMembers (lvl + 1) k v kvs ++ '\n' :: indentOf lvl ++ ['\x7d']
termination_by v => sizeOf v
def dumpsPElems (lvl : Nat) (x : PyVal) : List PyVal → List Char
  | [] => dumpsP lvl x
  | y :: rest => dumpsP lvl x ++ ',' :: '\n' :: indentOf lvl ++ dumpsPElems lvl y rest
termination_by xs => sizeOf x + sizeOf xs
def dumpsPMembers (lvl : Nat) (k : String) (v : PyVal) : List (String × PyVal) → List Char
  | [] => dumpJStrRaw k ++ ':' :: ' ' :: dumpsP lvl v
  | (k2, v2) :: rest =>
    dumpJStrRaw k ++ ':' :: ' ' :: dumpsP lvl v ++ ',' :: '\n' :: indentOf lvl ++ dumpsPMembers lvl k2 v2 rest
termination_by kvs => sizeOf v + sizeOf kvs
end

def dumpsPretty (v : PyVal) : String := String.mk (dumpsP 0 v)

/-! ## Mapper: entry extraction cascade -/

/-- `os.path.basename` for forward-slash paths. -/
def pathBasename (s : String) : String :=
  String.mk ((s.data.reverse.takeWhile (fun c => c ≠ '/')).reverse)

/-- The root part of `os.path.splitext`: strip the extension beginning at
the last dot, unless every character before that dot is itself a dot. -/
def splitExtRoot (s : String) : String :=
  let l := s.data
  let ext := l.reverse.takeWhile (fun c => c ≠ '.')
  if ext.length = l.length then s
  else
    let root := l.take (l.length - ext.length - 1)
    if root.all (fun c => c = '.') then s else String.mk root

/-- Structural matcher for case -1: `data['data']['character_book']['entries']`
present with the dict/dict/list instance checks of the source. -/
def shapeDataCB (data : List (String × PyVal)) : Option (List PyVal) :=
  match dictLookup data "data" with
  | some (.dict dd) =>
    match dictLookup dd "character_book" with
    | some (.dict cb) =>
      match dictLookup cb "entries" with
      | some (.list es) => some es
      | _ => Option.none
    | _ => Option.none
  | _ => Option.none

/-- Structural matcher for case 0: top-level `character_book.entries`. -/
def shapeCB (data : List (String × PyVal)) : Option (List PyVal) :=
  match dictLookup data "character_book" with
  | some (.dict cb) =>
    match dictLookup cb "entries" with
    | some (.list es) => some es
    | _ => Option.none
  | _ => Option.none

/-- Structural matcher for case 1: a top-level `entries` dict. -/
def shapeEntriesMap (data : List (String × PyVal)) : Option (List (String × PyVal)) :=
  match dictLookup data "entries" with
  | some (.dict em) => some em
  | _ => Option.none

/-- Case 2 test: `any(key in data for key in ["keys", "comment", "content",
"insertion_order"])`. -/
def hasEntryKeys (data : List (String × PyVal)) : Bool :=
  hasKey data "keys" || hasKey data "comment" || hasKey data "content" ||
    hasKey data "insertion_order"

/-- Case -1 loop.  `entry.get('id', i)` is evaluated OUTSIDE
`process_entry`'s try/except, so a non-dict element raises an
AttributeError that propagates out of `extract_entries_from_json`
(modelled as `.error ()`), discarding all triggers. -/
def extractListM1 (i : Nat) : List PyVal → Except Unit (List Trigger)
  | [] => .ok []
  | .dict kvs :: rest =>
    match extractListM1 (i + 1) rest with
    | .ok ts => .ok ((process_entry (dGet kvs "id" (.int i)) (.dict kvs)).toList ++ ts)
    | .error u => .error u
  | _ :: _ => .error ()

/-- Case 0 loop: positional ids, non-dict elements dropped inside
`process_entry`. -/
def extractList0 (i : Nat) : List PyVal → List Trigger
  | [] => []
  | e :: rest => (process_entry (.int i) e).toList ++ extractList0 (i + 1) rest

/-- Case 1 loop over `entries.items()`. -/
def extractDictEntries : List (String × PyVal) → List Trigger
  | [] => []
  | (k, v) :: rest => (process_entry (.str k) v).toList ++ extractDictEntries rest

/-- Case 3 loop: every top-level field whose value is a dict. -/
def extractTopDicts (data : List (String × PyVal)) : List Trigger :=
  data.flatMap (fun kv =>
    match kv.2 with
    | .dict _ => (process_entry (.str kv.1) kv.2).toList
    | _ => [])

/-- Case 4 loop: every dict item of every list-valued top-level field,
with ids rendered as `field_{index+1}`. -/
def extractTopLists (data : List (String × PyVal)) : List Trigger :=
  data.flatMap (fun kv =>
    match kv.2 with
    | .list xs =>
      (xs.enum.flatMap (fun ei =>
        match ei.2 with
        | .dict _ => (process_entry (.str (kv.1 ++ "_" ++ natStr (ei.1 + 1))) ei.2).toList
        | _ => []))
    | _ => [])

/-- Case 5 default entry wrapping the whole document. -/
def defaultEntry (data : List (String × PyVal)) (source_file : String) : PyVal :=
  let basename := if source_file = "" then "unknown" else pathBasename source_file
  let name := splitExtRoot basename
  .dict [("keys", .list [.str name]),
         ("comment", .str ("从" ++ basename ++ "生成")),
         ("content", .str (dumpsPretty (.dict data))),
         ("insertion_order", .int 100),
         ("extensions", .dict [("probability", .int 100)])]

/-- `LoreBookConverter.extract_entries_from_json`: the prioritized shape
cascade.  Cases -1, 0, 1 and 2 return as soon as their structural test
matches, whatever the loop produced; cases 3 and 4 fall through when they
yield no trigger; case 5 always synthesizes one entry. -/
def extract_entries_from_json (data : List (String × PyVal)) (source_file : String) :
    Except Unit (List Trigger) :=
  match shapeDataCB data with
  | some es => extractListM1 0 es
  | Option.none =>
  match shapeCB data with
  | some es => .ok (extractList0 0 es)
  | Option.none =>
  match shapeEntriesMap data with
  | some em => .ok (extractDictEntries em)
  | Option.none =>
  if hasEntryKeys data then .ok (process_entry (.str "1") (.dict data)).toList
  else
    match extractTopDicts data with
    | t :: ts => .ok (t :: ts)
    | [] =>
      match extractTopLists data with
      | t :: ts => .ok (t :: ts)
      | [] => .ok (process_entry (.str "default") (defaultEntry data source_file)).toList

/-- Sequencing of two loop segments under the case -1 exception model:
an exception in the earlier segment aborts before the later one runs. -/
def exceptAppend (a b : Except Unit (List Trigger)) : Except Unit (List Trigger) :=
  match a with
  | .error u => .error u
  | .ok xs =>
    match b with
    | .error u => .error u
    | .ok ys => .ok (xs ++ ys)

/-- Whether a value is a Python dict (`isinstance(entry, dict)`). -/
def isDictP : PyVal → Bool
  | .dict _ => true
  | _ => false

/-- The converter's output document (`world_state`/`user_state`/`trigger`). -/
structure YamlData where
  world_state : List (String × PyVal)
  user_state : List PyVal
  trigger : List Trigger

/-- The fixed fallback trigger appended by `convert_json_to_yaml` when no
trigger was produced.  Unlike processed entries its strings are NOT passed
through `quote_value`. -/
def fallbackTrigger : Trigger :=
  { name := .str "默认条目"
    ttype := "keywords"
    matchVal := ""
    conditional := ""
    priority := 50
    block := false
    probability := 1
    position := "sys_start"
    content := .str "无法从源数据提取有效内容，这是一个自动生成的默认条目。" }

/-- `LoreBookConverter.convert_json_to_yaml`: reset state, extract, append
the fallback trigger if the list is empty; a propagating exception (the
case -1 AttributeError) is caught by the method's `except` and reported as
failure (`Option.none` models `return False`). -/
def convert_json_to_yaml (data : List (String × PyVal)) (source_file : String) :
    Option YamlData :=
  match extract_entries_from_json data source_file with
  | .error _ => Option.none
  | .ok ts =>
    some { world_state := []
           user_state := []
           trigger := if ts.isEmpty then [fallbackTrigger] else ts }

/-! ## main.py: character summary extraction -/

/-- Tail of the `first_mes` probe chain from `char_greeting` on:
`char_greeting` wins by presence; `alternate_greetings` needs presence and
truthiness and then contributes its first element only if it is a
non-empty list (otherwise the accumulator keeps its initial `""`). -/
def fmCharGreeting (kvs : List (String × PyVal)) : PyVal :=
  match dictLookup kvs "char_greeting" with
  | some v => v
  | Option.none =>
    match dictLookup kvs "alternate_greetings" with
    | some ag =>
      if pyTruthy ag then
        match ag with
        | .list (x :: _) => x
        | _ => .str ""
      else .str ""
    | Option.none => .str ""

/-- `example_dialog` stage: needs presence and truthiness to commit; a
present-but-falsy value lets the chain continue. -/
def fmExample (kvs : List (String × PyVal)) : PyVal :=
  match dictLookup kvs "example_dialog" with
  | some ed =>
    if pyTruthy ed then
      match ed with
      | .list (x :: _) => x
      | _ => .str ""
    else fmCharGreeting kvs
  | Option.none => fmCharGreeting kvs

/-- The `begin_dialogs` extraction: first element of a non-empty list, the
string itself, else the untouched `""` accumulator. -/
def bdValue : PyVal → PyVal
  | .list (x :: _) => x
  | .str s => .str s
  | _ => .str ""

/-- The raw `first_mes` value selected by `_extract_character_info`'s
if/elif chain.  `first_mes`, `begin_dialogs`, `greeting` and
`char_greeting` commit by mere presence. -/
def firstMesRaw (kvs : List (String × PyVal)) : PyVal :=
  match dictLookup kvs "first_mes" with
  | some v => v
  | Option.none =>
    match dictLookup kvs "begin_dialogs" with
    | some bd => bdValue bd
    | Option.none =>
      match dictLookup kvs "greeting" with
      | some v => v
      | Option.none => fmExample kvs

/-- `_extract_character_info`: the three-line summary string.  The local
`quote_value` duplicates the converter's string case, so `quoteStr` is
shared. -/
def extract_character_info (kvs : List (String × PyVal)) : String :=
  let name := pyStr (dGet kvs "name" (.str ""))
  let description := pyStr (dGet kvs "description" (.str ""))
  let first_mes := pyStr (firstMesRaw kvs)
  "name: " ++ quoteStr name ++ "\n\n" ++ "prompt: " ++ quoteStr description ++
    "\n\n" ++ "first_mes: " ++ quoteStr first_mes

/-! ## PNG metadata codec (character-card codec module)

Byte streams are `List Nat` with entries below 256 where they originate
from real bytes; every byte the model itself emits is below 256 by
construction. -/

def pngSignature : List Nat := [137, 80, 78, 71, 13, 10, 26, 10]

/-- Big-endian 4-byte encoding (`struct.pack` with the `>I` format). -/
def be32 (n : Nat) : List Nat :=
  [n / 16777216 % 256, n / 65536 % 256, n / 256 % 256, n % 256]

def readBE32 (bs : List Nat) : Nat :=
  match bs with
  | [a, b, c, d] => ((a * 256 + b) * 256 + c) * 256 + d
  | _ => 0

def crc32Poly : Nat := 3988292384

def crc32StepBit (c : Nat) : Nat :=
  if c % 2 = 1 then (c / 2) ^^^ crc32Poly else c / 2

/-- One byte of the standard reflected CRC-32 of `zlib.crc32`. -/
def crc32Byte (c b : Nat) : Nat :=
  crc32StepBit (crc32StepBit (crc32StepBit (crc32StepBit
    (crc32StepBit (crc32StepBit (crc32StepBit (crc32StepBit (c ^^^ b % 256))))))))

def crc32 (data : List Nat) : Nat :=
  (data.foldl crc32Byte 4294967295) ^^^ 4294967295

/-- Byte value of a base64 sextet in the standard alphabet. -/
def sx (s : Nat) : Nat :=
  if s < 26 then s + 65
  else if s < 52 then s + 71
  else if s < 62 then s - 4
  else if s = 62 then 43 else 47

/-- `base64.b64encode` over bytes. -/
def b64encode : List Nat → List Nat
  | [] => []
  | [a] => [sx (a / 4), sx (a % 4 * 16), 61, 61]
  | [a, b] => [sx (a / 4), sx (a % 4 * 16 + b / 16), sx (b % 16 * 4), 61]
  | a :: b :: c :: rest =>
    sx (a / 4) :: sx (a % 4 * 16 + b / 16) :: sx (b % 16 * 4 + c / 64) :: sx (c % 64) ::
      b64encode rest

def isB64Byte (b : Nat) : Bool :=
  (65 ≤ b && b ≤ 90) || (97 ≤ b && b ≤ 122) || (48 ≤ b && b ≤ 57) ||
    b == 43 || b == 47 || b == 61

def b64Val (b : Nat) : Option Nat :=
  if 65 ≤ b ∧ b ≤ 90 then some (b - 65)
  else if 97 ≤ b ∧ b ≤ 122 then some (b - 71)
  else if 48 ≤ b ∧ b ≤ 57 then some (b + 4)
  else if b = 43 then some 62
  else if b = 47 then some 63
  else Option.none

def b64PlainQuad (a b c d : Nat) : Option (List Nat) :=
  match b64Val a, b64Val b, b64Val c, b64Val d with
  | some x, some y, some z, some w =>
    some [x * 4 + y / 16, y % 16 * 16 + z / 4, z % 4 * 64 + w]
  | _, _, _, _ => Option.none

/-- Quad-at-a-time base64 decoding; the final quad may carry one or two
padding characters; misplaced padding or a length that is not a multiple
of four fails (`binascii.Error`, a `ValueError`). -/
def b64Quads : List Nat → Option (List Nat)
  | [] => some []
  | a :: b :: c :: d :: rest =>
    match rest with
    | [] =>
      if c = 61 && d = 61 then
        match b64Val a, b64Val b with
        | some x, some y => some [x * 4 + y / 16]
        | _, _ => Option.none
      else if d = 61 then
        match b64Val a, b64Val b, b64Val c with
        | some x, some y, some z => some [x * 4 + y / 16, y % 16 * 16 + z / 4]
        | _, _, _ => Option.none
      else b64PlainQuad a b c d
    | _ :: _ =>
      match b64PlainQuad a b c d, b64Quads rest with
      | some bs, some more => some (bs ++ more)
      | _, _ => Option.none
  | _ => Option.none

/-- `base64.b64decode` on text: with the default `validate=False`,
characters outside the alphabet are discarded before decoding. -/
def b64decode (text : List Nat) : Option (List Nat) :=
  b64Quads (text.filter isB64Byte)

/-- One-byte-at-a-time UTF-8 validation: `pending` counts expected
continuation bytes and `lo`/`hi` bound the next continuation byte (the
first continuation of a multi-byte sequence carries the tightened ranges
that exclude overlong forms and surrogates). -/
def utf8Step : List Nat → Nat → Nat → Nat → Bool
  | [], pending, _, _ => pending == 0
  | b :: rest, 0, _, _ =>
    if b < 128 then utf8Step rest 0 128 192
    else if b < 194 then false
    else if b < 224 then utf8Step rest 1 128 192
    else if b = 224 then utf8Step rest 2 160 192
    else if b = 237 then utf8Step rest 2 128 160
    else if b < 240 then utf8Step rest 2 128 192
    else if b = 240 then utf8Step rest 3 144 192
    else if b < 244 then utf8Step rest 3 128 192
    else if b = 244 then utf8Step rest 3 128 144
    else false
  | b :: rest, pending + 1, lo, hi =>
    if lo ≤ b ∧ b < hi then utf8Step rest pending 128 192 else false

/-- UTF-8 validity of a byte sequence (what `bytes.decode('utf-8')`
accepts): ASCII, or correctly ranged multi-byte sequences excluding
overlong forms and surrogates. -/
def utf8Valid (bs : List Nat) : Bool := utf8Step bs 0 128 192

/-- Byte-wise lowercase matching Python `str.lower` on Latin-1 text
(ASCII letters and the Latin-1 letter block; U+00DF and U+00FF have
multi-character or out-of-range mappings irrelevant to keyword equality
with `chara`/`ccv3`). -/
def toLowerByte (b : Nat) : Nat :=
  if 65 ≤ b ∧ b ≤ 90 then b + 32
  else if 192 ≤ b ∧ b ≤ 222 ∧ b ≠ 215 then b + 32
  else b

/-- `chunk_data.split(b'\x00', 1)` with the two-element unpacking of
`_decode_text_chunk`: fails (ValueError) when no null byte is present. -/
def splitNull : List Nat → Option (List Nat × List Nat)
  | [] => Option.none
  | b :: rest =>
    if b = 0 then some ([], rest)
    else (splitNull rest).map (fun kt => (b :: kt.1, kt.2))

structure Chunk where
  ctype : List Nat
  cdata : List Nat
deriving DecidableEq

def tEXtT : List Nat := [116, 69, 88, 116]
def iendT : List Nat := [73, 69, 78, 68]
def charaKW : List Nat := [99, 104, 97, 114, 97]
def ccv3KW : List Nat := [99, 99, 118, 51]

/-- Serialization of one chunk: length, tag, payload and a freshly
computed CRC over tag+payload. -/
def serializeChunk (c : Chunk) : List Nat :=
  be32 c.cdata.length ++ (c.ctype ++ (c.cdata ++ be32 (crc32 (c.ctype ++ c.cdata))))

def serializeChunks : List Chunk → List Nat
  | [] => []
  | c :: rest => serializeChunk c ++ serializeChunks rest

/-- The chunk grammar of `png.Reader.chunks()`: 4-byte big-endian length,
4-byte tag, payload, CRC (verified); iteration stops at the IEND chunk
(bytes after it are ignored) and hitting the end of the stream without an
IEND is an error, as are truncated chunks. -/
def parseChunksAux (fuel : Nat) (bs : List Nat) : Option (List Chunk) :=
  match fuel with
  | 0 => Option.none
  | fuel + 1 =>
    if bs.length < 8 then Option.none
    else
      let len := readBE32 (bs.take 4)
      let ctype := (bs.drop 4).take 4
      let rest := bs.drop 8
      if rest.length < len + 4 then Option.none
      else
        let cdata := rest.take len
        if readBE32 ((rest.drop len).take 4) ≠ crc32 (ctype ++ cdata) then Option.none
        else if ctype = iendT then some [⟨ctype, cdata⟩]
        else
          match parseChunksAux fuel (rest.drop (len + 4)) with
          | some cs => some (⟨ctype, cdata⟩ :: cs)
          | Option.none => Option.none

/-- Signature validation plus chunk-stream parse, shared by
`read_metadata` and `write_metadata` (the former through pypng's own
signature check, the latter through its explicit `startswith` test). -/
def parsePng (bytes : List Nat) : Option (List Chunk) :=
  if bytes.take 8 = pngSignature then parseChunksAux bytes.length (bytes.drop 8)
  else Option.none

/-- The lowered keyword and text of a decodable tEXt chunk. -/
def textKeyVal (c : Chunk) : Option (List Nat × List Nat) :=
  if c.ctype = tEXtT then
    (splitNull c.cdata).map (fun kt => (kt.1.map toLowerByte, kt.2))
  else Option.none

/-- `write_metadata`'s filter predicate: keep every chunk except decodable
tEXt chunks whose lowered keyword is `chara` or `ccv3`; undecodable tEXt
chunks are conservatively retained. -/
def keepChunk (c : Chunk) : Bool :=
  match textKeyVal c with
  | some kt => !(kt.1 == charaKW) && !(kt.1 == ccv3KW)
  | Option.none => true

def filterReserved (cs : List Chunk) : List Chunk := cs.filter keepChunk

/-- Association update mirroring `text_chunks_data[keyword] = text`. -/
def dictUpB (td : List (List Nat × List Nat)) (k t : List Nat) :
    List (List Nat × List Nat) :=
  match td with
  | [] => [(k, t)]
  | (k1, t1) :: rest => if k1 = k then (k, t) :: rest else (k1, t1) :: dictUpB rest k t

def lookupB (td : List (List Nat × List Nat)) (k : List Nat) : Option (List Nat) :=
  match td with
  | [] => Option.none
  | (k1, t) :: rest => if k1 = k then some t else lookupB rest k

/-- One step of `read_metadata`'s text-chunk collection: a decodable tEXt
chunk is indexed by lowered keyword (overwriting like the Python dict
assignment), anything else is skipped with a logged warning. -/
def textStep (td : List (List Nat × List Nat)) (c : Chunk) :
    List (List Nat × List Nat) :=
  match textKeyVal c with
  | some kt => dictUpB td kt.1 kt.2
  | Option.none => td

/-- `read_metadata`'s per-chunk collection loop. -/
def collectText (chunks : List Chunk) : List (List Nat × List Nat) :=
  chunks.foldl textStep []

inductive CodecError where
  | pngError
  | valueError

/-- Decoding of a reserved-keyword payload: `base64.b64decode(text)`
(which first requires the text to be ASCII) followed by
`.decode('utf-8')`; any failure is re-raised as `ValueError`. -/
def decodePayload (text : List Nat) : Option (List Nat) :=
  if text.all (fun b => b < 128) then
    match b64decode text with
    | some bs => if utf8Valid bs then some bs else Option.none
    | Option.none => Option.none
  else Option.none

/-- `read_metadata`'s selection policy over the collected text dict:
empty dict is the no-data sentinel, else the decoded `ccv3` payload when
that keyword is present (decode failure raising `ValueError` even if a
valid `chara` exists), else `chara` under the same policy, else the
sentinel. -/
def selectPayload (td : List (List Nat × List Nat)) :
    Except CodecError (Option (List Nat)) :=
  if td.isEmpty then .ok Option.none
  else
    match lookupB td ccv3KW with
    | some t =>
      match decodePayload t with
      | some p => .ok (some p)
      | Option.none => .error .valueError
    | Option.none =>
      match lookupB td charaKW with
      | some t =>
        match decodePayload t with
        | some p => .ok (some p)
        | Option.none => .error .valueError
      | Option.none => .ok Option.none

/-- `read_metadata`: parse, collect text chunks, select.  The result
payload is represented by its UTF-8 bytes. -/
def read_metadata (imageBytes : List Nat) : Except CodecError (Option (List Nat)) :=
  match parsePng imageBytes with
  | Option.none => .error .pngError
  | some chunks => selectPayload (collectText chunks)

/-- `d['spec'] = 'chara_card_v3'; d['spec_version'] = '3.0'` on the parsed
payload dict. -/
def injectKvs (kvs : List (String × PyVal)) : List (String × PyVal) :=
  setAssoc (setAssoc kvs "spec" (.str "chara_card_v3")) "spec_version" (.str "3.0")

def injectSpec : PyVal → PyVal
  | .dict kvs => .dict (injectKvs kvs)
  | v => v

/-- Insert the new chunks immediately before the first IEND chunk, or
append them at the end (with a logged warning) when no IEND exists. -/
def insertBeforeIend (cs new : List Chunk) : List Chunk :=
  match cs with
  | [] => new
  | c :: rest =>
    if c.ctype = iendT then new ++ c :: rest else c :: insertBeforeIend rest new

/-- The new legacy chunk: keyword `chara`, Base64 of the raw JSON text. -/
def v2Chunk (dataBytes : List Nat) : Chunk :=
  ⟨tEXtT, charaKW ++ 0 :: b64encode dataBytes⟩

/-- The new current-version chunk, built only when `json.loads` yielded a
dict: keyword `ccv3`, Base64 of the re-serialized dict with the injected
`spec`/`spec_version` fields.  Parse failure, or a non-dict value (whose
field assignment raises), skips the chunk with a logged warning. -/
def v3Chunks (parsed : Option PyVal) : List Chunk :=
  match parsed with
  | some (.dict kvs) =>
    [⟨tEXtT, ccv3KW ++ 0 :: b64encode (dumpBytes (.dict (injectKvs kvs)))⟩]
  | _ => []

/-- `write_metadata`.  `dataBytes` is the UTF-8 encoding of the JSON text
argument and `parsed` the result of `json.loads` on it (`Option.none`
models `JSONDecodeError`). -/
def write_metadata (imageBytes dataBytes : List Nat) (parsed : Option PyVal) :
    Except CodecError (List Nat) :=
  if imageBytes.take 8 = pngSignature then
    match parsePng imageBytes with
    | Option.none => .error .pngError
    | some chunks =>
      .ok (pngSignature ++ serializeChunks
        (insertBeforeIend (filterReserved chunks) (v2Chunk dataBytes :: v3Chunks parsed)))
  else .error .pngError

/-! ## Lemmas: numerals, encodings and text -/

def isAsciiCh (c : Char) : Bool := decide (c.toNat < 128)

theorem digitCh_ascii (m : Nat) : isAsciiCh (digitCh m) = true := by
  unfold digitCh
  split <;> decide

theorem natDigitsAux_ascii (n : Nat) :
    ∀ acc : List Char, acc.all isAsciiCh = true →
      (natDigitsAux n acc).all isAsciiCh = true := by
  induction n using Nat.strong_induction_on with
  | _ n ih =>
    intro acc hacc
    unfold natDigitsAux
    split
    · exact hacc
    · next h =>
      exact ih _ (Nat.div_lt_self (Nat.pos_of_ne_zero h) (by decide)) _
        (by simp [List.all_cons, hacc, digitCh_ascii])

theorem natStr_ascii (n : Nat) : (natStr n).data.all isAsciiCh = true := by
  unfold natStr
  split
  · decide
  · exact natDigitsAux_ascii n [] rfl

theorem intStr_ascii (n : Int) : (intStr n).data.all isAsciiCh = true := by
  unfold intStr
  split
  · exact natStr_ascii _
  · rw [String.data_append, List.all_append]
    exact Bool.and_eq_true_iff.mpr ⟨by decide, natStr_ascii _⟩

theorem ratStr_ascii (q : ℚ) : (ratStr q).data.all isAsciiCh = true := by
  unfold ratStr
  split
  · rw [String.data_append, List.all_append]
    exact Bool.and_eq_true_iff.mpr ⟨intStr_ascii _, by decide⟩
  · rw [String.data_append, String.data_append, List.all_append, List.all_append]
    exact Bool.and_eq_true_iff.mpr
      ⟨Bool.and_eq_true_iff.mpr ⟨intStr_ascii _, by decide⟩, natStr_ascii _⟩

theorem hexDig_ascii (n : Nat) : isAsciiCh (hexDig n) = true := by
  unfold hexDig
  split <;> decide

theorem uEsc4_ascii (n : Nat) : (uEsc4 n).all isAsciiCh = true := by
  simp [uEsc4, List.all_cons, hexDig_ascii]
  all_goals decide

theorem escJsonAsciiChar_ascii (c : Char) : (escJsonAsciiChar c).all isAsciiCh = true := by
  unfold escJsonAsciiChar
  split_ifs with h1 h2 h3 h4 h5 h6 h7 h8 h9
  any_goals decide
  · simp [List.all_append, uEsc4_ascii]
  · simp [uEsc4_ascii]
  · simp only [List.all_cons, List.all_nil, Bool.and_true, isAsciiCh, decide_eq_true_eq]
    push_neg at h8
    omega

theorem all_flatMap {α β : Type} (p : β → Bool) (f : α → List β) (l : List α)
    (h : ∀ a ∈ l, (f a).all p = true) : (l.flatMap f).all p = true := by
  induction l with
  | nil => rfl
  | cons a rest ih =>
    simp only [List.flatMap_cons, List.all_append]
    exact Bool.and_eq_true_iff.mpr
      ⟨h a (by simp), ih (fun x hx => h x (by simp [hx]))⟩

theorem dumpJStr_ascii (s : String) : (dumpJStr s).all isAsciiCh = true := by
  unfold dumpJStr
  simp only [List.all_cons, List.all_append]
  simp [all_flatMap isAsciiCh escJsonAsciiChar s.data
    (fun a _ => escJsonAsciiChar_ascii a), isAsciiCh]

mutual
theorem dumpVal_ascii : ∀ v : PyVal, (dumpVal v).all isAsciiCh = true
  | .null => by decide
  | .bool b => by cases b <;> decide
  | .int n => by simpa [dumpVal] using intStr_ascii n
  | .float q => by simpa [dumpVal] using ratStr_ascii q
  | .str s => by simpa [dumpVal] using dumpJStr_ascii s
  | .list xs => by
    simp only [dumpVal, List.all_cons, List.all_append]
    simp [dumpElems_ascii xs, isAsciiCh]
  | .dict kvs => by
    simp only [dumpVal, List.all_cons, List.all_append]
    simp [dumpMembers_ascii kvs, isAsciiCh]
theorem dumpElems_ascii : ∀ xs : List PyVal, (dumpElems xs).all isAsciiCh = true
  | [] => by decide
  | [x] => by simpa [dumpElems] using dumpVal_ascii x
  | x :: y :: rest => by
    simp only [dumpElems, List.all_cons, List.all_append]
    simp [dumpVal_ascii x, dumpElems_ascii (y :: rest), isAsciiCh]
theorem dumpMembers_ascii : ∀ kvs : List (String × PyVal), (dumpMembers kvs).all isAsciiCh = true
  | [] => by decide
  | [(k, v)] => by
    simp only [dumpMembers, List.all_cons, List.all_append]
    simp [dumpJStr_ascii k, dumpVal_ascii v, isAsciiCh]
  | (k, v) :: m :: rest => by
    simp only [dumpMembers, List.all_cons, List.all_append]
    simp [dumpJStr_ascii k, dumpVal_ascii v, dumpMembers_ascii (m :: rest), isAsciiCh]
end

theorem dumpBytes_lt (v : PyVal) : ∀ b ∈ dumpBytes v, b < 128 := by
  intro b hb
  simp only [dumpBytes, List.mem_map] at hb
  obtain ⟨c, hc, rfl⟩ := hb
  have := List.all_eq_true.mp (dumpVal_ascii v) c hc
  simpa [isAsciiCh] using this

theorem crc32StepBit_lt (c : Nat) (h : c < 2 ^ 32) : crc32StepBit c < 2 ^ 32 := by
  unfold crc32StepBit crc32Poly
  split
  · exact Nat.xor_lt_two_pow (by omega) (by norm_num)
  · omega

theorem crc32Byte_lt (c b : Nat) (h : c < 2 ^ 32) : crc32Byte c b < 2 ^ 32 := by
  unfold crc32Byte
  have h0 : c ^^^ b % 256 < 2 ^ 32 :=
    Nat.xor_lt_two_pow h (lt_of_lt_of_le (Nat.mod_lt b (by norm_num)) (by norm_num))
  exact crc32StepBit_lt _ (crc32StepBit_lt _ (crc32StepBit_lt _ (crc32StepBit_lt _
    (crc32StepBit_lt _ (crc32StepBit_lt _ (crc32StepBit_lt _ (crc32StepBit_lt _ h0)))))))

theorem crc32_foldl_lt (data : List Nat) : ∀ c : Nat, c < 2 ^ 32 →
    data.foldl crc32Byte c < 2 ^ 32 := by
  induction data with
  | nil => intro c h; simpa using h
  | cons x xs ih => intro c h; exact ih _ (crc32Byte_lt _ _ h)

theorem crc32_lt (data : List Nat) : crc32 data < 2 ^ 32 := by
  unfold crc32
  exact Nat.xor_lt_two_pow (crc32_foldl_lt _ _ (by norm_num)) (by norm_num)

theorem readBE32_be32 (n : Nat) (h : n < 2 ^ 32) : readBE32 (be32 n) = n := by
  simp only [be32, readBE32]
  omega

theorem be32_length (n : Nat) : (be32 n).length = 4 := rfl

theorem sx_lt_128 : ∀ s, s < 64 → sx s < 128 := by decide

theorem isB64Byte_sx : ∀ s, s < 64 → isB64Byte (sx s) = true := by decide

theorem b64Val_sx : ∀ s, s < 64 → b64Val (sx s) = some s := by decide

theorem sx_ne_61 : ∀ s, s < 64 → sx s ≠ 61 := by decide

theorem b64encode_valid : ∀ bs : List Nat, (∀ b ∈ bs, b < 256) →
    ∀ x ∈ b64encode bs, isB64Byte x = true
  | [], _, x, hx => by simp [b64encode] at hx
  | [a], h, x, hx => by
    have ha : a < 256 := h a (by simp)
    simp only [b64encode, List.mem_cons, List.not_mem_nil, or_false] at hx
    rcases hx with rfl | rfl | rfl | rfl
    · exact isB64Byte_sx _ (by omega)
    · exact isB64Byte_sx _ (by omega)
    · decide
    · decide
  | [a, b], h, x, hx => by
    have ha : a < 256 := h a (by simp)
    have hb : b < 256 := h b (by simp)
    simp only [b64encode, List.mem_cons, List.not_mem_nil, or_false] at hx
    rcases hx with rfl | rfl | rfl | rfl
    · exact isB64Byte_sx _ (by omega)
    · exact isB64Byte_sx _ (by omega)
    · exact isB64Byte_sx _ (by omega)
    · decide
  | a :: b :: c :: rest, h, x, hx => by
    have ha : a < 256 := h a (by simp)
    have hb : b < 256 := h b (by simp)
    have hc : c < 256 := h c (by simp)
    simp only [b64encode, List.mem_cons] at hx
    rcases hx with rfl | rfl | rfl | rfl | hx
    · exact isB64Byte_sx _ (by omega)
    · exact isB64Byte_sx _ (by omega)
    · exact isB64Byte_sx _ (by omega)
    · exact isB64Byte_sx _ (by omega)
    · exact b64encode_valid rest (fun y hy => h y (by simp [hy])) x hx

theorem isB64Byte_lt_128 (x : Nat) (hx : isB64Byte x = true) : x < 128 := by
  simp only [isB64Byte, Bool.or_eq_true, Bool.and_eq_true, decide_eq_true_eq,
    beq_iff_eq] at hx
  omega

theorem b64_roundtrip : ∀ bs : List Nat, (∀ b ∈ bs, b < 256) →
    b64Quads (b64encode bs) = some bs
  | [], _ => rfl
  | [a], h => by
    have ha : a < 256 := h a (by simp)
    simp only [b64encode, b64Quads, b64Val_sx _ (show a / 4 < 64 by omega),
      b64Val_sx _ (show a % 4 * 16 < 64 by omega)]
    norm_num
    omega
  | [a, b], h => by
    have ha : a < 256 := h a (by simp)
    have hb : b < 256 := h b (by simp)
    have h3 : sx (b % 16 * 4) ≠ 61 := sx_ne_61 _ (by omega)
    simp only [b64encode, b64Quads, b64Val_sx _ (show a / 4 < 64 by omega),
      b64Val_sx _ (show a % 4 * 16 + b / 16 < 64 by omega),
      b64Val_sx _ (show b % 16 * 4 < 64 by omega), h3]
    norm_num [h3]
    omega
  | a :: b :: c :: rest, h => by
    have ha : a < 256 := h a (by simp)
    have hb : b < 256 := h b (by simp)
    have hc : c < 256 := h c (by simp)
    have hplain : b64PlainQuad (sx (a / 4)) (sx (a % 4 * 16 + b / 16))
        (sx (b % 16 * 4 + c / 64)) (sx (c % 64)) = some [a, b, c] := by
      simp only [b64PlainQuad, b64Val_sx _ (show a / 4 < 64 by omega),
        b64Val_sx _ (show a % 4 * 16 + b / 16 < 64 by omega),
        b64Val_sx _ (show b % 16 * 4 + c / 64 < 64 by omega),
        b64Val_sx _ (show c % 64 < 64 by omega)]
      norm_num
      omega
    cases rest with
    | nil =>
      have h3 : sx (b % 16 * 4 + c / 64) ≠ 61 := sx_ne_61 _ (by omega)
      have h4 : sx (c % 64) ≠ 61 := sx_ne_61 _ (by omega)
      simp only [b64encode, b64Quads, hplain]
      norm_num [h3, h4]
    | cons d rest2 =>
      have htail : ∀ y ∈ d :: rest2, y < 256 := fun y hy => h y (by simp at hy ⊢; tauto)
      have hne : b64encode (d :: rest2) ≠ [] := by
        cases rest2 with
        | nil => simp [b64encode]
        | cons e rest3 =>
          cases rest3 with
          | nil => simp [b64encode]
          | cons f rest4 => simp [b64encode]
      cases hrest : b64encode (d :: rest2) with
      | nil => exact absurd hrest hne
      | cons y ys =>
        have hq := b64_roundtrip (d :: rest2) htail
        rw [hrest] at hq
        simp only [b64encode, hrest, b64Quads, hplain, hq]
        rfl

theorem b64decode_encode (bs : List Nat) (h : ∀ b ∈ bs, b < 256) :
    b64decode (b64encode bs) = some bs := by
  unfold b64decode
  rw [List.filter_eq_self.mpr (b64encode_valid bs h), b64_roundtrip bs h]

theorem b64encode_all_lt_128 (bs : List Nat) (h : ∀ b ∈ bs, b < 256) :
    (b64encode bs).all (fun b => b < 128) = true := by
  refine List.all_eq_true.mpr (fun x hx => ?_)
  simpa using isB64Byte_lt_128 x (b64encode_valid bs h x hx)

theorem utf8Valid_ascii (bs : List Nat) (h : ∀ b ∈ bs, b < 128) : utf8Valid bs = true := by
  unfold utf8Valid
  induction bs with
  | nil => rfl
  | cons b rest ih =>
    have hb : b < 128 := h b (by simp)
    unfold utf8Step
    rw [if_pos hb]
    exact ih (fun x hx => h x (List.mem_cons_of_mem _ hx))

theorem splitNull_append (k t : List Nat) (hk : ∀ b ∈ k, b ≠ 0) :
    splitNull (k ++ 0 :: t) = some (k, t) := by
  induction k with
  | nil => simp [splitNull]
  | cons b rest ih =>
    have hb : b ≠ 0 := hk b (by simp)
    have ih2 := ih (fun x hx => hk x (by simp [hx]))
    rw [List.cons_append]
    unfold splitNull
    rw [if_neg hb, ih2]
    rfl

/-! ## Lemmas: chunk stream serialization and parsing -/

theorem parseChunksAux_cons (fuel : Nat) (T D rest : List Nat)
    (h4 : T.length = 4) (hlt : D.length < 2 ^ 32) :
    parseChunksAux (fuel + 1) (serializeChunk ⟨T, D⟩ ++ rest) =
      if T = iendT then some [⟨T, D⟩]
      else
        match parseChunksAux fuel rest with
        | some cs => some (⟨T, D⟩ :: cs)
        | Option.none => Option.none := by
  have hR := crc32_lt (T ++ D)
  have hbs : serializeChunk ⟨T, D⟩ ++ rest =
      be32 D.length ++ ((T ++ (D ++ be32 (crc32 (T ++ D)))) ++ rest) := by
    simp [serializeChunk, List.append_assoc]
  have hlen : (serializeChunk ⟨T, D⟩ ++ rest).length = 12 + D.length + rest.length := by
    simp [serializeChunk, List.length_append, be32, h4]
    omega
  have htake4 : (serializeChunk ⟨T, D⟩ ++ rest).take 4 = be32 D.length := by
    rw [hbs]
    exact List.take_left' (be32_length _)
  have hdrop4 : (serializeChunk ⟨T, D⟩ ++ rest).drop 4 =
      (T ++ (D ++ be32 (crc32 (T ++ D)))) ++ rest := by
    rw [hbs]
    exact List.drop_left' (be32_length _)
  have hdrop4take4 : ((serializeChunk ⟨T, D⟩ ++ rest).drop 4).take 4 = T := by
    rw [hdrop4, List.append_assoc]
    exact List.take_left' h4
  have hdrop8 : (serializeChunk ⟨T, D⟩ ++ rest).drop 8 =
      D ++ (be32 (crc32 (T ++ D)) ++ rest) := by
    have h2 : (serializeChunk ⟨T, D⟩ ++ rest).drop 8 =
        ((serializeChunk ⟨T, D⟩ ++ rest).drop 4).drop 4 := by
      rw [List.drop_drop]
    rw [h2, hdrop4, List.append_assoc, List.drop_left' h4, List.append_assoc]
  have hrest8len : (D ++ (be32 (crc32 (T ++ D)) ++ rest)).length =
      D.length + 4 + rest.length := by
    simp [List.length_append, be32]
    omega
  have htakeL : (D ++ (be32 (crc32 (T ++ D)) ++ rest)).take D.length = D :=
    List.take_left' rfl
  have hdropL : (D ++ (be32 (crc32 (T ++ D)) ++ rest)).drop D.length =
      be32 (crc32 (T ++ D)) ++ rest := List.drop_left' rfl
  have hcrc : ((D ++ (be32 (crc32 (T ++ D)) ++ rest)).drop D.length).take 4 =
      be32 (crc32 (T ++ D)) := by
    rw [hdropL]
    exact List.take_left' (be32_length _)
  have hdropL4 : (D ++ (be32 (crc32 (T ++ D)) ++ rest)).drop (D.length + 4) = rest := by
    have h1 : D ++ (be32 (crc32 (T ++ D)) ++ rest) =
        (D ++ be32 (crc32 (T ++ D))) ++ rest := by rw [List.append_assoc]
    rw [h1]
    refine List.drop_left' ?_
    simp [List.length_append, be32]
  simp only [parseChunksAux, hlen, htake4, hdrop4take4, hdrop8,
    readBE32_be32 _ hlt, readBE32_be32 _ hR, hrest8len, htakeL, hcrc, hdropL4]
  rw [if_neg (by omega), if_neg (by omega), if_neg (by simp)]

theorem parseChunksAux_props : ∀ fuel bs cs, parseChunksAux fuel bs = some cs →
    ∃ front lastc, cs = front ++ [lastc] ∧ lastc.ctype = iendT ∧
      (∀ c ∈ cs, c.ctype.length = 4 ∧ c.cdata.length ≤ bs.length) ∧
      (∀ c ∈ front, c.ctype ≠ iendT) := by
  intro fuel
  induction fuel with
  | zero => intro bs cs h; simp [parseChunksAux] at h
  | succ fuel ih =>
    intro bs cs h
    simp only [parseChunksAux] at h
    split at h
    · exact absurd h (by simp)
    · next hlen8 =>
      split at h
      · exact absurd h (by simp)
      · next hlenL =>
        split at h
        · exact absurd h (by simp)
        · next hcrc =>
          have hct : ((bs.drop 4).take 4).length = 4 := by
            simp [List.length_take, List.length_drop]
            omega
          have hcd : ((bs.drop 8).take (readBE32 (bs.take 4))).length ≤ bs.length := by
            calc ((bs.drop 8).take (readBE32 (bs.take 4))).length
                ≤ (bs.drop 8).length := by
                  rw [List.length_take]
                  exact min_le_right _ _
              _ ≤ bs.length := by simp [List.length_drop]
          split at h
          · next hiend =>
            cases h
            refine ⟨[], _, rfl, hiend, ?_, by simp⟩
            intro c hc
            simp at hc
            subst hc
            exact ⟨hct, hcd⟩
          · next hniend =>
            cases hrec : parseChunksAux fuel ((bs.drop 8).drop (readBE32 (bs.take 4) + 4)) with
            | none => rw [hrec] at h; exact absurd h (by simp)
            | some cs2 =>
              rw [hrec] at h
              cases h
              obtain ⟨front2, lastc2, heq, hie, hprops, hfront⟩ := ih _ _ hrec
              refine ⟨⟨(bs.drop 4).take 4, (bs.drop 8).take (readBE32 (bs.take 4))⟩ :: front2,
                lastc2, by simp [heq], hie, ?_, ?_⟩
              · intro c hc
                rcases List.mem_cons.mp hc with rfl | hc2
                · exact ⟨hct, hcd⟩
                · obtain ⟨h1, h2⟩ := hprops c (heq ▸ hc2)
                  refine ⟨h1, le_trans h2 ?_⟩
                  simp only [List.length_drop]
                  omega
              · intro c hc
                rcases List.mem_cons.mp hc with rfl | hc2
                · exact hniend
                · exact hfront c hc2

theorem serializeChunks_append (cs ds : List Chunk) :
    serializeChunks (cs ++ ds) = serializeChunks cs ++ serializeChunks ds := by
  induction cs with
  | nil => simp [serializeChunks]
  | cons c rest ih => simp [serializeChunks, ih, List.append_assoc]

theorem length_le_serializeChunks (cs : List Chunk) :
    cs.length ≤ (serializeChunks cs).length := by
  induction cs with
  | nil => simp [serializeChunks]
  | cons c rest ih =>
    simp only [serializeChunks, List.length_append, List.length_cons,
      serializeChunk, be32]
    simp at ih ⊢
    omega

theorem parse_serialize : ∀ (front : List Chunk) (lastc : Chunk) (fuel : Nat),
    front.length < fuel →
    (∀ c ∈ front, c.ctype.length = 4 ∧ c.cdata.length < 2 ^ 32 ∧ c.ctype ≠ iendT) →
    lastc.ctype = iendT → lastc.cdata.length < 2 ^ 32 →
    parseChunksAux fuel (serializeChunks (front ++ [lastc])) = some (front ++ [lastc])
  | [], lastc, fuel, hf, _, hlast, hlastlen => by
    obtain ⟨f2, rfl⟩ : ∃ f2, fuel = f2 + 1 := ⟨fuel - 1, by omega⟩
    obtain ⟨T, D⟩ := lastc
    simp only at hlast hlastlen
    have h4 : T.length = 4 := by rw [hlast]; rfl
    have hser : serializeChunks [(⟨T, D⟩ : Chunk)] = serializeChunk ⟨T, D⟩ ++ [] := by
      simp [serializeChunks]
    rw [List.nil_append, hser, parseChunksAux_cons f2 T D [] h4 hlastlen, if_pos hlast]
  | c :: front, lastc, fuel, hf, hmem, hlast, hlastlen => by
    obtain ⟨f2, rfl⟩ : ∃ f2, fuel = f2 + 1 := ⟨fuel - 1, by omega⟩
    obtain ⟨hc4, hclen, hcne⟩ := hmem c (by simp)
    obtain ⟨T, D⟩ := c
    have hser : serializeChunks ((⟨T, D⟩ :: front) ++ [lastc]) =
        serializeChunk ⟨T, D⟩ ++ serializeChunks (front ++ [lastc]) := by
      simp [serializeChunks]
    rw [hser, parseChunksAux_cons f2 T D _ hc4 hclen, if_neg hcne,
      parse_serialize front lastc f2 (by simp at hf; omega)
        (fun x hx => hmem x (List.mem_cons_of_mem _ hx)) hlast hlastlen]
    rfl

theorem parsePng_sig (bytes : List Nat) (cs : List Chunk)
    (h : parsePng bytes = some cs) : bytes.take 8 = pngSignature := by
  by_contra hne
  simp [parsePng, hne] at h

/-! ## Lemmas: text chunks, reserved keywords and the write shape -/

theorem charaKW_nonzero : ∀ b ∈ charaKW, b ≠ 0 := by decide

theorem ccv3KW_nonzero : ∀ b ∈ ccv3KW, b ≠ 0 := by decide

theorem textKeyVal_v2 (db : List Nat) :
    textKeyVal (v2Chunk db) = some (charaKW, b64encode db) := by
  unfold textKeyVal v2Chunk
  rw [if_pos rfl]
  rw [splitNull_append _ _ charaKW_nonzero]
  rfl

theorem textKeyVal_v3 (p : List Nat) :
    textKeyVal ⟨tEXtT, ccv3KW ++ 0 :: p⟩ = some (ccv3KW, p) := by
  unfold textKeyVal
  rw [if_pos rfl, splitNull_append _ _ ccv3KW_nonzero]
  rfl

theorem textKeyVal_iend (c : Chunk) (h : c.ctype = iendT) :
    textKeyVal c = Option.none := by
  unfold textKeyVal
  rw [h, if_neg (by decide)]

theorem keepChunk_of_iend (c : Chunk) (h : c.ctype = iendT) : keepChunk c = true := by
  unfold keepChunk
  rw [textKeyVal_iend c h]

theorem keepChunk_v2 (db : List Nat) : keepChunk (v2Chunk db) = false := by
  unfold keepChunk
  rw [textKeyVal_v2]
  rfl

theorem keepChunk_v3 (p : List Nat) :
    keepChunk ⟨tEXtT, ccv3KW ++ 0 :: p⟩ = false := by
  unfold keepChunk
  rw [textKeyVal_v3]
  rfl

theorem keepChunk_spec (c : Chunk) (h : keepChunk c = true) :
    ∀ kt, textKeyVal c = some kt → kt.1 ≠ charaKW ∧ kt.1 ≠ ccv3KW := by
  intro kt hkt
  unfold keepChunk at h
  rw [hkt] at h
  simpa using h

theorem lookupB_dictUpB_self (td : List (List Nat × List Nat)) (k v : List Nat) :
    lookupB (dictUpB td k v) k = some v := by
  induction td with
  | nil => simp [dictUpB, lookupB]
  | cons p rest ih =>
    obtain ⟨k1, v1⟩ := p
    by_cases h : k1 = k
    · simp [dictUpB, h, lookupB]
    · simp [dictUpB, h, lookupB, ih]

theorem lookupB_dictUpB_other (td : List (List Nat × List Nat)) (ki v kq : List Nat)
    (h : ki ≠ kq) : lookupB (dictUpB td ki v) kq = lookupB td kq := by
  induction td with
  | nil => simp [dictUpB, lookupB, h]
  | cons p rest ih =>
    obtain ⟨k1, v1⟩ := p
    by_cases h1 : k1 = ki
    · subst h1
      simp [dictUpB, lookupB, h]
    · simp [dictUpB, h1, lookupB, ih]

theorem dictUpB_ne_nil (td : List (List Nat × List Nat)) (k v : List Nat) :
    dictUpB td k v ≠ [] := by
  cases td with
  | nil => simp [dictUpB]
  | cons p rest =>
    obtain ⟨k1, v1⟩ := p
    unfold dictUpB
    split <;> simp

theorem lookupB_foldl_untouched (chunks : List Chunk) (k : List Nat)
    (hch : ∀ c ∈ chunks, ∀ kt, textKeyVal c = some kt → kt.1 ≠ k) :
    ∀ td, lookupB (chunks.foldl textStep td) k = lookupB td k := by
  induction chunks with
  | nil => intro td; rfl
  | cons c rest ih =>
    intro td
    rw [List.foldl_cons,
      ih (fun x hx kt hkt => hch x (List.mem_cons_of_mem _ hx) kt hkt)]
    unfold textStep
    cases hkv : textKeyVal c with
    | none => rfl
    | some kt => exact lookupB_dictUpB_other _ _ _ _ (hch c (by simp) kt hkv)

theorem insertBeforeIend_append (ff : List Chunk) (lastc : Chunk) (new : List Chunk)
    (hff : ∀ c ∈ ff, c.ctype ≠ iendT) (hlast : lastc.ctype = iendT) :
    insertBeforeIend (ff ++ [lastc]) new = ff ++ (new ++ [lastc]) := by
  induction ff with
  | nil => simp [insertBeforeIend, hlast]
  | cons c rest ih =>
    have h1 : (c :: rest) ++ [lastc] = c :: (rest ++ [lastc]) := rfl
    rw [h1]
    unfold insertBeforeIend
    rw [if_neg (hff c (by simp)), ih (fun x hx => hff x (List.mem_cons_of_mem _ hx))]
    rfl

theorem filterReserved_append_iend (front : List Chunk) (lastc : Chunk)
    (hlast : lastc.ctype = iendT) :
    filterReserved (front ++ [lastc]) = filterReserved front ++ [lastc] := by
  unfold filterReserved
  rw [List.filter_append]
  simp [List.filter, keepChunk_of_iend lastc hlast]

theorem b64encode_length_le : ∀ bs : List Nat, (b64encode bs).length ≤ 2 * bs.length + 4
  | [] => by simp [b64encode]
  | [_] => by simp [b64encode]
  | [_, _] => by simp [b64encode]
  | a :: b :: c :: rest => by
    have := b64encode_length_le rest
    simp [b64encode]
    omega

theorem decodePayload_encode (bs : List Nat) (h : ∀ b ∈ bs, b < 128) :
    decodePayload (b64encode bs) = some bs := by
  have h256 : ∀ b ∈ bs, b < 256 := fun b hb => lt_trans (h b hb) (by norm_num)
  have hall : (b64encode bs).all (fun b => b < 128) = true :=
    List.all_eq_true.mpr
      (fun x hx => by simpa using isB64Byte_lt_128 x (b64encode_valid bs h256 x hx))
  unfold decodePayload
  rw [if_pos hall, b64decode_encode bs h256]
  simp [utf8Valid_ascii bs h]

/-- The chunk list assembled by `write_metadata` from a parsed container. -/
def newChunksOf (chunks : List Chunk) (db : List Nat) (pd : Option PyVal) : List Chunk :=
  insertBeforeIend (filterReserved chunks) (v2Chunk db :: v3Chunks pd)

theorem write_metadata_ok (bytes db : List Nat) (pd : Option PyVal) (chunks : List Chunk)
    (hparse : parsePng bytes = some chunks) :
    write_metadata bytes db pd =
      .ok (pngSignature ++ serializeChunks (newChunksOf chunks db pd)) := by
  unfold write_metadata newChunksOf
  rw [if_pos (parsePng_sig bytes chunks hparse), hparse]

theorem parsePng_sig_serialize (front : List Chunk) (lastc : Chunk)
    (hmem : ∀ c ∈ front, c.ctype.length = 4 ∧ c.cdata.length < 2 ^ 32 ∧ c.ctype ≠ iendT)
    (hlast : lastc.ctype = iendT) (hlastlen : lastc.cdata.length < 2 ^ 32) :
    parsePng (pngSignature ++ serializeChunks (front ++ [lastc])) =
      some (front ++ [lastc]) := by
  unfold parsePng
  rw [List.take_left' (show pngSignature.length = 8 from rfl), if_pos rfl,
    List.drop_left' (show pngSignature.length = 8 from rfl)]
  refine parse_serialize front lastc _ ?_ hmem hlast hlastlen
  have h1 := length_le_serializeChunks (front ++ [lastc])
  simp only [List.length_append, List.length_cons, List.length_nil] at h1 ⊢
  have : pngSignature.length = 8 := rfl
  omega

theorem collectText_append (ff tail : List Chunk) :
    collectText (ff ++ tail) = tail.foldl textStep (collectText ff) := by
  unfold collectText
  rw [List.foldl_append]

theorem lookupB_collect_keep (ff : List Chunk) (hkeep : ∀ c ∈ ff, keepChunk c = true) :
    lookupB (collectText ff) charaKW = Option.none ∧
    lookupB (collectText ff) ccv3KW = Option.none := by
  unfold collectText
  constructor
  · rw [lookupB_foldl_untouched ff charaKW
      (fun c hc kt hkt => (keepChunk_spec c (hkeep c hc) kt hkt).1) []]
    rfl
  · rw [lookupB_foldl_untouched ff ccv3KW
      (fun c hc kt hkt => (keepChunk_spec c (hkeep c hc) kt hkt).2) []]
    rfl

theorem isEmpty_false_of_ne_nil {α : Type} (l : List α) (h : l ≠ []) :
    l.isEmpty = false := by
  cases l with
  | nil => exact absurd rfl h
  | cons a rest => rfl

theorem v3Chunks_shape (pd : Option PyVal) :
    v3Chunks pd = [] ∨ ∃ p, v3Chunks pd = [⟨tEXtT, ccv3KW ++ 0 :: p⟩] := by
  cases pd with
  | none => exact Or.inl rfl
  | some v =>
    cases v with
    | dict kvs => exact Or.inr ⟨_, rfl⟩
    | null => exact Or.inl rfl
    | bool b => exact Or.inl rfl
    | int n => exact Or.inl rfl
    | float q => exact Or.inl rfl
    | str s => exact Or.inl rfl
    | list xs => exact Or.inl rfl

theorem filterReserved_v3 (pd : Option PyVal) : filterReserved (v3Chunks pd) = [] := by
  rcases v3Chunks_shape pd with h | ⟨p, h⟩ <;> rw [h]
  · rfl
  · simp [filterReserved, List.filter, keepChunk_v3]

theorem v3Chunks_ctype (pd : Option PyVal) :
    ∀ c ∈ v3Chunks pd, c.ctype = tEXtT := by
  rcases v3Chunks_shape pd with h | ⟨p, h⟩ <;> rw [h] <;> simp

/-- The combined shape of one `write_metadata` pass on a parseable
container: the output value, its parse, and the fact that a second
identical write reproduces it byte for byte. -/
theorem write_shape (bytes db : List Nat) (pd : Option PyVal) (chunks : List Chunk)
    (hparse : parsePng bytes = some chunks)
    (hblen : bytes.length < 2 ^ 32)
    (hv2len : (v2Chunk db).cdata.length < 2 ^ 32)
    (hv3len : ∀ c ∈ v3Chunks pd, c.cdata.length < 2 ^ 32) :
    ∃ ff lastc,
      (∀ c ∈ ff, keepChunk c = true) ∧ lastc.ctype = iendT ∧
      write_metadata bytes db pd =
        .ok (pngSignature ++
          serializeChunks (ff ++ ((v2Chunk db :: v3Chunks pd) ++ [lastc]))) ∧
      parsePng (pngSignature ++
          serializeChunks (ff ++ ((v2Chunk db :: v3Chunks pd) ++ [lastc]))) =
        some (ff ++ ((v2Chunk db :: v3Chunks pd) ++ [lastc])) ∧
      write_metadata (pngSignature ++
          serializeChunks (ff ++ ((v2Chunk db :: v3Chunks pd) ++ [lastc]))) db pd =
        .ok (pngSignature ++
          serializeChunks (ff ++ ((v2Chunk db :: v3Chunks pd) ++ [lastc]))) := by
  have hsig := parsePng_sig bytes chunks hparse
  have hpc : parseChunksAux bytes.length (bytes.drop 8) = some chunks := by
    unfold parsePng at hparse
    rw [if_pos hsig] at hparse
    exact hparse
  obtain ⟨front, lastc, rfl, hie, hprops, hfrontne⟩ := parseChunksAux_props _ _ _ hpc
  have hdroplen : (bytes.drop 8).length ≤ bytes.length := by
    simp [List.length_drop]
  -- facts about the filtered front
  have hffmem : ∀ c ∈ filterReserved front, c ∈ front :=
    fun c hc => List.mem_of_mem_filter hc
  have hkeepff : ∀ c ∈ filterReserved front, keepChunk c = true :=
    fun c hc => List.of_mem_filter hc
  have hffne : ∀ c ∈ filterReserved front, c.ctype ≠ iendT :=
    fun c hc => hfrontne c (hffmem c hc)
  have hffprops : ∀ c ∈ filterReserved front,
      c.ctype.length = 4 ∧ c.cdata.length < 2 ^ 32 ∧ c.ctype ≠ iendT := by
    intro c hc
    obtain ⟨h1, h2⟩ := hprops c (List.mem_append_left _ (hffmem c hc))
    exact ⟨h1, by omega, hffne c hc⟩
  have hlastmem : lastc ∈ front ++ [lastc] :=
    List.mem_append_right _ (by simp)
  have hlastlen : lastc.cdata.length < 2 ^ 32 := by
    obtain ⟨_, h2⟩ := hprops lastc hlastmem
    omega
  have hnewmem : ∀ c ∈ filterReserved front ++ (v2Chunk db :: v3Chunks pd),
      c.ctype.length = 4 ∧ c.cdata.length < 2 ^ 32 ∧ c.ctype ≠ iendT := by
    intro c hc
    rcases List.mem_append.mp hc with hc1 | hc2
    · exact hffprops c hc1
    · rcases List.mem_cons.mp hc2 with rfl | hc3
      · exact ⟨rfl, hv2len, show tEXtT ≠ iendT by decide⟩
      · have hct := v3Chunks_ctype pd c hc3
        refine ⟨by rw [hct]; rfl, hv3len c hc3, by rw [hct]; decide⟩
  have hfilter : filterReserved (front ++ [lastc]) = filterReserved front ++ [lastc] :=
    filterReserved_append_iend front lastc hie
  have hinsert : insertBeforeIend (filterReserved front ++ [lastc])
      (v2Chunk db :: v3Chunks pd) =
      filterReserved front ++ ((v2Chunk db :: v3Chunks pd) ++ [lastc]) :=
    insertBeforeIend_append _ _ _ hffne hie
  have hnew : newChunksOf (front ++ [lastc]) db pd =
      filterReserved front ++ ((v2Chunk db :: v3Chunks pd) ++ [lastc]) := by
    unfold newChunksOf
    rw [hfilter, hinsert]
  have hassoc : filterReserved front ++ ((v2Chunk db :: v3Chunks pd) ++ [lastc]) =
      (filterReserved front ++ (v2Chunk db :: v3Chunks pd)) ++ [lastc] := by
    rw [List.append_assoc]
  have hparseout : parsePng (pngSignature ++
      serializeChunks (filterReserved front ++ ((v2Chunk db :: v3Chunks pd) ++ [lastc]))) =
      some (filterReserved front ++ ((v2Chunk db :: v3Chunks pd) ++ [lastc])) := by
    rw [hassoc]
    exact parsePng_sig_serialize _ lastc hnewmem hie hlastlen
  refine ⟨filterReserved front, lastc, hkeepff, hie, ?_, hparseout, ?_⟩
  · rw [write_metadata_ok bytes db pd _ hparse, hnew]
  · rw [write_metadata_ok _ db pd _ hparseout]
    congr 2
    unfold newChunksOf
    have hfr : filterReserved (filterReserved front ++
        ((v2Chunk db :: v3Chunks pd) ++ [lastc])) = filterReserved front ++ [lastc] := by
      show List.filter keepChunk _ = _
      rw [List.filter_append, List.filter_append]
      have h0 : List.filter keepChunk (filterReserved front) = filterReserved front :=
        List.filter_eq_self.mpr hkeepff
      have h1 : List.filter keepChunk (v2Chunk db :: v3Chunks pd) = [] := by
        rw [List.filter_cons_of_neg (by simp [keepChunk_v2])]
        exact filterReserved_v3 pd
      have h2 : List.filter keepChunk [lastc] = [lastc] := by
        simp [List.filter, keepChunk_of_iend lastc hie]
      rw [h0, h1, h2]
      rfl
    rw [hfr, hinsert]

theorem read_metadata_eq (bytes : List Nat) (chunks : List Chunk)
    (h : parsePng bytes = some chunks) :
    read_metadata bytes = selectPayload (collectText chunks) := by
  unfold read_metadata
  rw [h]

theorem selectPayload_ccv3 (td : List (List Nat × List Nat)) (t : List Nat)
    (hne : td ≠ []) (h : lookupB td ccv3KW = some t) :
    selectPayload td =
      match decodePayload t with
      | some p => .ok (some p)
      | Option.none => .error .valueError := by
  unfold selectPayload
  rw [isEmpty_false_of_ne_nil td hne, h]
  rfl

theorem selectPayload_chara (td : List (List Nat × List Nat)) (t : List Nat)
    (hne : td ≠ []) (h3 : lookupB td ccv3KW = Option.none)
    (h : lookupB td charaKW = some t) :
    selectPayload td =
      match decodePayload t with
      | some p => .ok (some p)
      | Option.none => .error .valueError := by
  unfold selectPayload
  rw [isEmpty_false_of_ne_nil td hne, h3, h]
  rfl

theorem selectPayload_neither (td : List (List Nat × List Nat))
    (h3 : lookupB td ccv3KW = Option.none) (h2 : lookupB td charaKW = Option.none) :
    selectPayload td = .ok Option.none := by
  unfold selectPayload
  cases htd : td.isEmpty with
  | true => rfl
  | false =>
    rw [h3, h2]
    rfl

theorem collectText_tail_dict (ff : List Chunk) (lastc : Chunk) (db p3 : List Nat)
    (hie : lastc.ctype = iendT) :
    collectText (ff ++ ((v2Chunk db :: [⟨tEXtT, ccv3KW ++ 0 :: p3⟩]) ++ [lastc])) =
      dictUpB (dictUpB (collectText ff) charaKW (b64encode db)) ccv3KW p3 := by
  rw [collectText_append]
  show textStep (textStep (textStep (collectText ff) (v2Chunk db))
    ⟨tEXtT, ccv3KW ++ 0 :: p3⟩) lastc = _
  have e1 : textStep (collectText ff) (v2Chunk db) =
      dictUpB (collectText ff) charaKW (b64encode db) := by
    unfold textStep
    rw [textKeyVal_v2]
  have e2 : ∀ td, textStep td (⟨tEXtT, ccv3KW ++ 0 :: p3⟩ : Chunk) = dictUpB td ccv3KW p3 := by
    intro td
    unfold textStep
    rw [textKeyVal_v3]
  have e3 : ∀ td, textStep td lastc = td := by
    intro td
    unfold textStep
    rw [textKeyVal_iend lastc hie]
  rw [e1, e2, e3]

theorem collectText_tail_nodict (ff : List Chunk) (lastc : Chunk) (db : List Nat)
    (hie : lastc.ctype = iendT) :
    collectText (ff ++ ((v2Chunk db :: ([] : List Chunk)) ++ [lastc])) =
      dictUpB (collectText ff) charaKW (b64encode db) := by
  rw [collectText_append]
  show textStep (textStep (collectText ff) (v2Chunk db)) lastc = _
  have e1 : textStep (collectText ff) (v2Chunk db) =
      dictUpB (collectText ff) charaKW (b64encode db) := by
    unfold textStep
    rw [textKeyVal_v2]
  have e3 : ∀ td, textStep td lastc = td := by
    intro td
    unfold textStep
    rw [textKeyVal_iend lastc hie]
  rw [e1, e3]

theorem dictLookup_setAssoc_other (kvs : List (String × PyVal)) (k : String) (v : PyVal)
    (k2 : String) (h : k ≠ k2) : dictLookup (setAssoc kvs k v) k2 = dictLookup kvs k2 := by
  induction kvs with
  | nil => simp [setAssoc, dictLookup, h]
  | cons p rest ih =>
    obtain ⟨k1, v1⟩ := p
    by_cases h1 : k1 = k
    · subst h1
      simp [setAssoc, dictLookup, h]
    · simp [setAssoc, h1, dictLookup, ih]

theorem write_read_nondict (bytes db : List Nat) (d : PyVal) (chunks : List Chunk)
    (hparse : parsePng bytes = some chunks) (hblen : bytes.length < 2 ^ 32)
    (hv2len : (v2Chunk db).cdata.length < 2 ^ 32)
    (hv3 : v3Chunks (some d) = [])
    (hdb : ∀ b ∈ db, b < 128) :
    ∃ out, write_metadata bytes db (some d) = .ok out ∧
      read_metadata out = .ok (some db) := by
  have hv3len : ∀ c ∈ v3Chunks (some d), c.cdata.length < 2 ^ 32 := by
    rw [hv3]
    intro c hc
    cases hc
  obtain ⟨ff, lastc, hkeepff, hie, hwok, hparseout, _⟩ :=
    write_shape bytes db (some d) chunks hparse hblen hv2len hv3len
  rw [hv3] at hwok hparseout
  refine ⟨_, hwok, ?_⟩
  have h3 : lookupB (dictUpB (collectText ff) charaKW (b64encode db)) ccv3KW =
      Option.none := by
    rw [lookupB_dictUpB_other _ _ _ _ (by decide)]
    exact (lookupB_collect_keep ff hkeepff).2
  rw [read_metadata_eq _ _ hparseout, collectText_tail_nodict ff lastc db hie,
    selectPayload_chara _ _ (dictUpB_ne_nil _ _ _) h3 (lookupB_dictUpB_self _ _ _),
    decodePayload_encode db hdb]

/-- C2 (confirmed): round-trip of the codec.  For every parseable container
and JSON value `d` (embedded via its canonical serialization `dumpBytes d`,
with `some d` the result of `json.loads` on that text),
`read_metadata (write_metadata container D)` succeeds and returns exactly
the serialization of `injectSpec d`, i.e. of `d` with `spec`/`spec_version`
injected when `d` is an object (for a non-object no `ccv3` chunk is
written and the legacy payload is returned verbatim); moreover the
injection changes no other key.  The size bounds reflect the 32-bit chunk
length fields of the format. -/
theorem claim_C2_roundtrip (bytes : List Nat) (d : PyVal) (chunks : List Chunk)
    (hparse : parsePng bytes = some chunks)
    (hblen : bytes.length < 2 ^ 32)
    (hd : (dumpBytes d).length ≤ 2 ^ 30)
    (hd2 : (dumpBytes (injectSpec d)).length ≤ 2 ^ 30) :
    ∃ out, write_metadata bytes (dumpBytes d) (some d) = .ok out ∧
      read_metadata out = .ok (some (dumpBytes (injectSpec d))) ∧
      (∀ kvs k, d = .dict kvs → k ≠ "spec" → k ≠ "spec_version" →
        dictLookup (injectKvs kvs) k = dictLookup kvs k) := by
  have hv2len : (v2Chunk (dumpBytes d)).cdata.length < 2 ^ 32 := by
    have hb := b64encode_length_le (dumpBytes d)
    simp only [v2Chunk, List.length_append, List.length_cons]
    have h5 : charaKW.length = 5 := rfl
    omega
  have hlookup : ∀ kvs k, d = .dict kvs → k ≠ "spec" → k ≠ "spec_version" →
      dictLookup (injectKvs kvs) k = dictLookup kvs k := by
    intro kvs k _ h1 h2
    unfold injectKvs
    rw [dictLookup_setAssoc_other _ _ _ _ (fun hc => h2 hc.symm),
      dictLookup_setAssoc_other _ _ _ _ (fun hc => h1 hc.symm)]
  cases d with
  | dict kvs =>
    have hv3len : ∀ c ∈ v3Chunks (some (.dict kvs)), c.cdata.length < 2 ^ 32 := by
      intro c hc
      have hc2 : c = ⟨tEXtT, ccv3KW ++ 0 :: b64encode (dumpBytes (.dict (injectKvs kvs)))⟩ :=
        List.mem_singleton.mp hc
      subst hc2
      have hb := b64encode_length_le (dumpBytes (.dict (injectKvs kvs)))
      have hd2b : (dumpBytes (PyVal.dict (injectKvs kvs))).length ≤ 2 ^ 30 := hd2
      simp only [List.length_append, List.length_cons]
      have h4 : ccv3KW.length = 4 := rfl
      omega
    obtain ⟨ff, lastc, hkeepff, hie, hwok, hparseout, _⟩ :=
      write_shape bytes (dumpBytes (.dict kvs)) (some (.dict kvs)) chunks hparse hblen
        hv2len hv3len
    refine ⟨_, hwok, ?_, hlookup⟩
    rw [read_metadata_eq _ _ hparseout]
    rw [show v3Chunks (some (PyVal.dict kvs)) =
        [⟨tEXtT, ccv3KW ++ 0 :: b64encode (dumpBytes (.dict (injectKvs kvs)))⟩] from rfl,
      collectText_tail_dict ff lastc _ _ hie,
      selectPayload_ccv3 _ _ (dictUpB_ne_nil _ _ _) (lookupB_dictUpB_self _ _ _),
      decodePayload_encode _ (dumpBytes_lt _)]
    rfl
  | null =>
    obtain ⟨out, h1, h2⟩ := write_read_nondict bytes (dumpBytes .null) .null chunks
      hparse hblen hv2len rfl (dumpBytes_lt _)
    exact ⟨out, h1, h2, hlookup⟩
  | bool b =>
    obtain ⟨out, h1, h2⟩ := write_read_nondict bytes (dumpBytes (.bool b)) (.bool b) chunks
      hparse hblen hv2len rfl (dumpBytes_lt _)
    exact ⟨out, h1, h2, hlookup⟩
  | int n =>
    obtain ⟨out, h1, h2⟩ := write_read_nondict bytes (dumpBytes (.int n)) (.int n) chunks
      hparse hblen hv2len rfl (dumpBytes_lt _)
    exact ⟨out, h1, h2, hlookup⟩
  | float q =>
    obtain ⟨out, h1, h2⟩ := write_read_nondict bytes (dumpBytes (.float q)) (.float q) chunks
      hparse hblen hv2len rfl (dumpBytes_lt _)
    exact ⟨out, h1, h2, hlookup⟩
  | str s =>
    obtain ⟨out, h1, h2⟩ := write_read_nondict bytes (dumpBytes (.str s)) (.str s) chunks
      hparse hblen hv2len rfl (dumpBytes_lt _)
    exact ⟨out, h1, h2, hlookup⟩
  | list xs =>
    obtain ⟨out, h1, h2⟩ := write_read_nondict bytes (dumpBytes (.list xs)) (.list xs) chunks
      hparse hblen hv2len rfl (dumpBytes_lt _)
    exact ⟨out, h1, h2, hlookup⟩

theorem claim_C2_witness :
    ∃ out, write_metadata (pngSignature ++ serializeChunks [⟨iendT, []⟩])
        (dumpBytes (.dict [])) (some (.dict [])) = .ok out ∧
      read_metadata out = .ok (some (dumpBytes (injectSpec (.dict [])))) ∧
      (∀ kvs k, (PyVal.dict []) = .dict kvs → k ≠ "spec" → k ≠ "spec_version" →
        dictLookup (injectKvs kvs) k = dictLookup kvs k) :=
  claim_C2_roundtrip (pngSignature ++ serializeChunks [⟨iendT, []⟩]) (.dict [])
    [⟨iendT, []⟩] rfl (by decide) (by decide) (by decide)

/-- C7 (confirmed): idempotent re-write.  Writing twice with the same data
to the same container yields the same byte stream, so the read result of
the double write equals that of the single write: the pre-existing
`chara`/`ccv3` text chunks (matched case-insensitively) are always removed
before insertion, never duplicated. -/
theorem claim_C7_idempotent (bytes db : List Nat) (pd : Option PyVal) (chunks : List Chunk)
    (hparse : parsePng bytes = some chunks) (hblen : bytes.length < 2 ^ 32)
    (hv2len : (v2Chunk db).cdata.length < 2 ^ 32)
    (hv3len : ∀ c ∈ v3Chunks pd, c.cdata.length < 2 ^ 32) :
    ∃ out, write_metadata bytes db pd = .ok out ∧
      write_metadata out db pd = .ok out ∧
      ∀ out2, write_metadata out db pd = .ok out2 →
        read_metadata out2 = read_metadata out := by
  obtain ⟨ff, lastc, _, _, hwok, _, hw2⟩ :=
    write_shape bytes db pd chunks hparse hblen hv2len hv3len
  refine ⟨_, hwok, hw2, ?_⟩
  intro out2 h
  rw [hw2] at h
  rw [Except.ok.inj h]

theorem claim_C7_witness :
    ∃ out, write_metadata (pngSignature ++ serializeChunks [⟨iendT, []⟩])
        (dumpBytes (.dict [])) (some (.dict [])) = .ok out ∧
      write_metadata out (dumpBytes (.dict [])) (some (.dict [])) = .ok out ∧
      ∀ out2, write_metadata out (dumpBytes (.dict [])) (some (.dict [])) = .ok out2 →
        read_metadata out2 = read_metadata out :=
  claim_C7_idempotent (pngSignature ++ serializeChunks [⟨iendT, []⟩])
    (dumpBytes (.dict [])) (some (.dict [])) [⟨iendT, []⟩] rfl (by decide) (by decide)
    (by
      intro c hc
      have hc2 : c = ⟨tEXtT, ccv3KW ++ 0 :: b64encode (dumpBytes (.dict (injectKvs [])))⟩ :=
        List.mem_singleton.mp hc
      subst hc2
      decide)

/-- C6 (confirmed): `read_metadata`'s selection policy.  On a parseable
container: if a `ccv3` entry exists in the collected text dict, its decode
is returned and a decode failure raises `ValueError` (regardless of any
`chara` entry); only without `ccv3` is `chara` consulted under the same
decode-or-fail policy; with neither reserved keyword the no-metadata
sentinel is returned, not an error. -/
theorem claim_C6_selection (bytes : List Nat) (chunks : List Chunk)
    (hparse : parsePng bytes = some chunks) :
    (∀ t, lookupB (collectText chunks) ccv3KW = some t →
       (∀ p, decodePayload t = some p → read_metadata bytes = .ok (some p)) ∧
       (decodePayload t = Option.none → read_metadata bytes = .error .valueError)) ∧
    (lookupB (collectText chunks) ccv3KW = Option.none →
      ∀ t, lookupB (collectText chunks) charaKW = some t →
       (∀ p, decodePayload t = some p → read_metadata bytes = .ok (some p)) ∧
       (decodePayload t = Option.none → read_metadata bytes = .error .valueError)) ∧
    (lookupB (collectText chunks) ccv3KW = Option.none →
     lookupB (collectText chunks) charaKW = Option.none →
     read_metadata bytes = .ok Option.none) := by
  rw [read_metadata_eq _ _ hparse]
  refine ⟨?_, ?_, ?_⟩
  · intro t ht
    have hne : collectText chunks ≠ [] := by
      intro hnil
      rw [hnil] at ht
      cases ht
    rw [selectPayload_ccv3 _ _ hne ht]
    constructor
    · intro p hp
      rw [hp]
    · intro hp
      rw [hp]
  · intro h3 t ht
    have hne : collectText chunks ≠ [] := by
      intro hnil
      rw [hnil] at ht
      cases ht
    rw [selectPayload_chara _ _ hne h3 ht]
    constructor
    · intro p hp
      rw [hp]
    · intro hp
      rw [hp]
  · intro h3 h2
    exact selectPayload_neither _ h3 h2

set_option maxRecDepth 8192 in
theorem claim_C6_witness :
    read_metadata (pngSignature ++ serializeChunks
      [⟨tEXtT, ccv3KW ++ 0 :: [65]⟩,
       ⟨tEXtT, charaKW ++ 0 :: b64encode (dumpBytes (.dict []))⟩,
       ⟨iendT, []⟩]) = .error .valueError :=
  ((claim_C6_selection
    (pngSignature ++ serializeChunks
      [⟨tEXtT, ccv3KW ++ 0 :: [65]⟩,
       ⟨tEXtT, charaKW ++ 0 :: b64encode (dumpBytes (.dict []))⟩,
       ⟨iendT, []⟩])
    [⟨tEXtT, ccv3KW ++ 0 :: [65]⟩,
     ⟨tEXtT, charaKW ++ 0 :: b64encode (dumpBytes (.dict []))⟩,
     ⟨iendT, []⟩] (by decide)).1 [65] (by decide)).2 (by decide)

/-- C8 (confirmed): for every byte buffer that does not start with the
fixed 8-byte PNG signature, both `read_metadata` and `write_metadata`
fail with the container format error (`png.Error`) rather than silently
returning an empty or no-op result. -/
theorem claim_C8_bad_signature (bytes : List Nat) (h : bytes.take 8 ≠ pngSignature) :
    read_metadata bytes = .error .pngError ∧
    ∀ db pd, write_metadata bytes db pd = .error .pngError := by
  constructor
  · unfold read_metadata parsePng
    rw [if_neg h]
  · intro db pd
    unfold write_metadata
    rw [if_neg h]

theorem claim_C8_witness :
    read_metadata [0] = .error .pngError ∧
    ∀ db pd, write_metadata [0] db pd = .error .pngError :=
  claim_C8_bad_signature [0] (by decide)

/-! ## Lemmas: the mapper -/

theorem filter_pyTruthy_idem (xs : List PyVal) :
    (xs.filter pyTruthy).filter pyTruthy = xs.filter pyTruthy := by
  rw [List.filter_filter]
  simp

theorem joinAmp_filter (xs : List PyVal) : joinAmp (xs.filter pyTruthy) = joinAmp xs := by
  unfold joinAmp
  rw [filter_pyTruthy_idem]

theorem process_match_eq (keys ks : PyVal) :
    process_match keys ks =
      if pyTruthy keys = false then ""
      else if matchPrimary keys ≠ "" ∧ matchSecondary ks ≠ "" then
        matchPrimary keys ++ "~" ++ matchSecondary ks
      else matchPrimary keys := rfl

/-- C10 (confirmed): match construction edges.  A falsy primary `keys`
value yields the empty match whatever the secondary keys are; no
`~`-suffixed secondary part is ever emitted without a non-empty primary
part (an empty primary join gives the empty match); and falsy individual
keys are filtered out of both `&`-joined lists. -/
theorem claim_C10_match_empty :
    (∀ keys ks, pyTruthy keys = false → process_match keys ks = "") ∧
    (∀ keys ks, matchPrimary keys = "" → process_match keys ks = "") ∧
    (∀ xs ks, process_match (.list xs) ks = process_match (.list (xs.filter pyTruthy)) ks) ∧
    (∀ keys ys, process_match keys (.list ys) = process_match keys (.list (ys.filter pyTruthy))) := by
  refine ⟨?_, ?_, ?_, ?_⟩
  · intro keys ks h
    rw [process_match_eq, if_pos h]
  · intro keys ks h
    rw [process_match_eq]
    by_cases ht : pyTruthy keys = false
    · rw [if_pos ht]
    · rw [if_neg ht, h, if_neg (by simp)]
  · intro xs ks
    rw [process_match_eq, process_match_eq]
    by_cases hf : xs.filter pyTruthy = []
    · have h1 : matchPrimary (.list xs) = "" := by
        show joinAmp xs = ""
        unfold joinAmp
        rw [hf]
        rfl
      have h2 : matchPrimary (.list (xs.filter pyTruthy)) = "" := by
        rw [hf]
        rfl
      rw [h1, h2]
      by_cases ht1 : pyTruthy (PyVal.list xs) = false <;>
        by_cases ht2 : pyTruthy (PyVal.list (xs.filter pyTruthy)) = false <;>
          simp [ht1, ht2]
    · have h1 : matchPrimary (.list (xs.filter pyTruthy)) = matchPrimary (.list xs) := by
        show joinAmp (xs.filter pyTruthy) = joinAmp xs
        exact joinAmp_filter xs
      have ht1 : pyTruthy (PyVal.list xs) = true := by
        cases xs with
        | nil => exact absurd rfl hf
        | cons a rest => rfl
      have ht2 : pyTruthy (PyVal.list (xs.filter pyTruthy)) = true := by
        cases hgg : xs.filter pyTruthy with
        | nil => exact absurd hgg hf
        | cons a rest => simp [pyTruthy, hgg]
      rw [h1, ht1, ht2]
  · intro keys ys
    rw [process_match_eq, process_match_eq]
    have hsec : matchSecondary (.list ys) = matchSecondary (.list (ys.filter pyTruthy)) := by
      by_cases hf : ys.filter pyTruthy = []
      · cases ys with
        | nil => rfl
        | cons a rest =>
          show (if (a :: rest).isEmpty = true then "" else joinAmp (a :: rest)) =
            (if (List.filter pyTruthy (a :: rest)).isEmpty = true then ""
             else joinAmp (List.filter pyTruthy (a :: rest)))
          have e1 : (if (a :: rest).isEmpty = true then "" else joinAmp (a :: rest)) =
              joinAmp (a :: rest) := by
            rw [if_neg (by simp)]
          have e2 : (if (List.filter pyTruthy (a :: rest)).isEmpty = true then ""
              else joinAmp (List.filter pyTruthy (a :: rest))) = "" := by
            rw [hf]
            rfl
          rw [e1, e2]
          unfold joinAmp
          rw [hf]
          rfl
      · cases ys with
        | nil => exact absurd rfl hf
        | cons a rest =>
          show (if (a :: rest).isEmpty = true then "" else joinAmp (a :: rest)) =
            (if (List.filter pyTruthy (a :: rest)).isEmpty = true then ""
             else joinAmp (List.filter pyTruthy (a :: rest)))
          cases hgg : List.filter pyTruthy (a :: rest) with
          | nil => exact absurd hgg hf
          | cons b bs =>
            have e1 : (if (a :: rest).isEmpty = true then "" else joinAmp (a :: rest)) =
                joinAmp (a :: rest) := by
              rw [if_neg (by simp)]
            have e2 : (if (b :: bs).isEmpty = true then "" else joinAmp (b :: bs)) =
                joinAmp (b :: bs) := by
              rw [if_neg (by simp)]
            rw [e1, e2, ← hgg, joinAmp_filter]
    rw [hsec]

theorem claim_C10_witness :
    process_match (.list []) (.str "x") = "" ∧
    process_match (.list [.str "a", .str "", .int 0]) (.list []) =
      process_match (.list [.str "a"]) (.list []) :=
  ⟨claim_C10_match_empty.1 (.list []) (.str "x") rfl,
   claim_C10_match_empty.2.2.1 [.str "a", .str "", .int 0] (.list [])⟩

/-- C9 (confirmed): for every input JSON document, a successful
`convert_json_to_yaml` leaves a non-empty `trigger` list, and whenever
extraction produced zero triggers, the result is exactly the one fixed
fallback trigger (priority 50, probability 1.0, position sys_start,
block false). -/
theorem claim_C9_fallback (data : List (String × PyVal)) (sf : String) (res : YamlData)
    (h : convert_json_to_yaml data sf = some res) :
    res.trigger ≠ [] ∧
    (extract_entries_from_json data sf = .ok [] → res.trigger = [fallbackTrigger]) := by
  unfold convert_json_to_yaml at h
  cases hex : extract_entries_from_json data sf with
  | error u =>
    rw [hex] at h
    cases h
  | ok ts =>
    rw [hex] at h
    cases h
    constructor
    · cases ts <;> simp
    · intro h0
      have hts : ts = [] := Except.ok.inj h0
      subst hts
      rfl

theorem claim_C9_witness :
    ({world_state := [], user_state := [], trigger := [fallbackTrigger]} : YamlData).trigger ≠ [] ∧
    (extract_entries_from_json [("entries", PyVal.dict [])] "" = .ok [] →
      ({world_state := [], user_state := [], trigger := [fallbackTrigger]} : YamlData).trigger =
        [fallbackTrigger]) :=
  claim_C9_fallback [("entries", PyVal.dict [])] "" _ rfl

/-- C1 counterexample: a document whose `data.character_book.entries` list
is present but empty, and which also carries a top-level `content` field
(so the claimed fall-through would reach the single-entry shape and
produce a trigger).  The cascade nevertheless returns the empty result at
the first shape, while on the same document without the `data` field the
later shape does produce a trigger — refuting "the cascade continues on
to the later shapes rather than returning an empty result". -/
theorem claim_C1_counterexample :
    extract_entries_from_json
      [("data", .dict [("character_book", .dict [("entries", .list [])])]),
       ("content", .str "hello")] "" = .ok [] ∧
    (extract_entries_from_json [("content", PyVal.str "hello")] "").map List.isEmpty =
      .ok false := by
  exact ⟨rfl, rfl⟩

/-- C1 (corrected): the cascade's first four shapes
(`data.character_book.entries`, `character_book.entries`, the `entries`
map, the single-entry heuristic) return their result as soon as they
structurally match, even when they yield zero candidates; only the
top-level-object-fields shape falls through to the list-fields shape (and
then to the wrap-everything default) when it produces zero triggers. -/
theorem claim_C1_amended_cascade :
    (∀ data sf es, shapeDataCB data = some es →
       extract_entries_from_json data sf = extractListM1 0 es) ∧
    (∀ data sf, shapeDataCB data = Option.none → shapeCB data = Option.none →
       shapeEntriesMap data = Option.none → hasEntryKeys data = false →
       extractTopDicts data = [] → extractTopLists data ≠ [] →
       extract_entries_from_json data sf = .ok (extractTopLists data)) := by
  constructor
  · intro data sf es h
    unfold extract_entries_from_json
    rw [h]
  · intro data sf h1 h2 h3 h4 h5 h6
    unfold extract_entries_from_json
    rw [h1, h2, h3, h4, h5]
    cases hl : extractTopLists data with
    | nil => exact absurd hl h6
    | cons t ts => rfl

theorem claim_C1_witness :
    extract_entries_from_json
      [("data", .dict [("character_book", .dict [("entries", .list [])])])] "x" =
      extractListM1 0 [] :=
  claim_C1_amended_cascade.1
    [("data", .dict [("character_book", .dict [("entries", .list [])])])] "x" [] rfl

theorem extractList0_append (pre post : List PyVal) : ∀ i,
    extractList0 i (pre ++ post) = extractList0 i pre ++ extractList0 (i + pre.length) post := by
  induction pre with
  | nil =>
    intro i
    simp [extractList0]
  | cons e rest ih =>
    intro i
    have hstep1 : extractList0 i (e :: (rest ++ post)) =
        (process_entry (.int i) e).toList ++ extractList0 (i + 1) (rest ++ post) := rfl
    have hstep2 : extractList0 i (e :: rest) =
        (process_entry (.int i) e).toList ++ extractList0 (i + 1) rest := rfl
    show extractList0 i (e :: (rest ++ post)) = _
    rw [hstep1, hstep2, ih (i + 1)]
    have harith : i + 1 + rest.length = i + (e :: rest).length := by
      simp
      omega
    rw [harith, List.append_assoc]

theorem extractDictEntries_append (pre post : List (String × PyVal)) :
    extractDictEntries (pre ++ post) = extractDictEntries pre ++ extractDictEntries post := by
  induction pre with
  | nil => simp [extractDictEntries]
  | cons e rest ih =>
    obtain ⟨k, v⟩ := e
    have hstep1 : extractDictEntries ((k, v) :: (rest ++ post)) =
        (process_entry (.str k) v).toList ++ extractDictEntries (rest ++ post) := rfl
    have hstep2 : extractDictEntries ((k, v) :: rest) =
        (process_entry (.str k) v).toList ++ extractDictEntries rest := rfl
    show extractDictEntries ((k, v) :: (rest ++ post)) = _
    rw [hstep1, hstep2, ih, List.append_assoc]

theorem extractListM1_cons_dict (i : Nat) (kvs : List (String × PyVal)) (rest : List PyVal) :
    extractListM1 i (PyVal.dict kvs :: rest) =
      match extractListM1 (i + 1) rest with
      | .ok ts =>
        .ok ((process_entry (dGet kvs "id" (.int i)) (.dict kvs)).toList ++ ts)
      | .error u => .error u := rfl

theorem extractListM1_append (pre post : List PyVal) : ∀ i,
    extractListM1 i (pre ++ post) =
      exceptAppend (extractListM1 i pre) (extractListM1 (i + pre.length) post) := by
  induction pre with
  | nil =>
    intro i
    show extractListM1 i post = exceptAppend (.ok []) (extractListM1 (i + 0) post)
    cases h : extractListM1 (i + 0) post with
    | error u =>
      rw [show i + 0 = i from rfl] at h
      rw [h]
      rfl
    | ok ts =>
      rw [show i + 0 = i from rfl] at h
      rw [h]
      rfl
  | cons e rest ih =>
    intro i
    cases e with
    | dict kvs =>
      show extractListM1 i (PyVal.dict kvs :: (rest ++ post)) = _
      rw [extractListM1_cons_dict i kvs (rest ++ post),
        extractListM1_cons_dict i kvs rest, ih (i + 1)]
      have harith : i + 1 + rest.length = i + (PyVal.dict kvs :: rest).length := by
        simp
        omega
      rw [harith]
      cases h1 : extractListM1 (i + 1) rest with
      | error u =>
        cases h2 : extractListM1 (i + (PyVal.dict kvs :: rest).length) post <;> rfl
      | ok ts =>
        cases h2 : extractListM1 (i + (PyVal.dict kvs :: rest).length) post with
        | error u => rfl
        | ok ts2 => simp [exceptAppend, List.append_assoc]
    | null => rfl
    | bool b => rfl
    | int n => rfl
    | float q => rfl
    | str s => rfl
    | list xs => rfl

/-- C3 counterexample: in the `data.character_book.entries` shape a
non-dict entry makes `entry.get('id', i)` raise an AttributeError before
`process_entry`'s guard can skip it; the exception escapes
`extract_entries_from_json`, the sibling dict entry is lost, and the
whole conversion fails — refuting "it never aborts the processing of the
remaining entries or the whole conversion". -/
theorem claim_C3_counterexample :
    extract_entries_from_json
      [("data", .dict [("character_book", .dict [("entries",
        .list [.str "oops", .dict [("content", .str "hello")]])])])] "" = .error () ∧
    convert_json_to_yaml
      [("data", .dict [("character_book", .dict [("entries",
        .list [.str "oops", .dict [("content", .str "hello")]])])])] "" = Option.none :=
  ⟨rfl, rfl⟩

/-- C3 (corrected): per-entry isolation of normalization failures holds in
the `character_book.entries` shape (positional ids), the `entries` map
shape (key ids), and for dict entries of the `data.character_book.entries`
shape — an entry whose `process_entry` yields nothing is dropped and the
neighbouring entries keep their positions and ids; a non-dict value is
skipped inside `process_entry` itself.  (In the `data.character_book`
shape, a NON-dict entry instead raises before normalization and aborts
the conversion — see the counterexample.) -/
theorem claim_C3_amended_drop :
    (∀ i (pre : List PyVal) x post, process_entry (.int (i + pre.length : Nat)) x = Option.none →
       extractList0 i (pre ++ x :: post) =
         extractList0 i pre ++ extractList0 (i + pre.length + 1) post) ∧
    (∀ (pre : List (String × PyVal)) k v post, process_entry (.str k) v = Option.none →
       extractDictEntries (pre ++ (k, v) :: post) =
         extractDictEntries pre ++ extractDictEntries post) ∧
    (∀ i (pre : List PyVal) kvs post,
       process_entry (dGet kvs "id" (.int (i + pre.length : Nat))) (.dict kvs) = Option.none →
       extractListM1 i (pre ++ .dict kvs :: post) =
         exceptAppend (extractListM1 i pre) (extractListM1 (i + pre.length + 1) post)) ∧
    (∀ entry_id x, isDictP x = false → process_entry entry_id x = Option.none) := by
  refine ⟨?_, ?_, ?_, ?_⟩
  · intro i pre x post hnone
    rw [extractList0_append]
    have hstep : extractList0 (i + pre.length) (x :: post) =
        (process_entry (.int ((i + pre.length : Nat) : Int)) x).toList ++
          extractList0 (i + pre.length + 1) post := rfl
    rw [hstep, hnone]
    rfl
  · intro pre k v post hnone
    rw [extractDictEntries_append]
    have hstep : extractDictEntries ((k, v) :: post) =
        (process_entry (.str k) v).toList ++ extractDictEntries post := rfl
    rw [hstep, hnone]
    rfl
  · intro i pre kvs post hnone
    rw [extractListM1_append, extractListM1_cons_dict (i + pre.length) kvs post, hnone]
    cases h2 : extractListM1 (i + pre.length + 1) post <;> rfl
  · intro entry_id x hx
    cases x <;> first | rfl | (cases hx)

theorem claim_C3_witness :
    extractList0 0 ([PyVal.str "x"] ++ PyVal.str "oops" :: [PyVal.dict [("content", PyVal.str "hi")]]) =
      extractList0 0 [PyVal.str "x"] ++ extractList0 2 [PyVal.dict [("content", PyVal.str "hi")]] :=
  claim_C3_amended_drop.1 0 [PyVal.str "x"] (PyVal.str "oops")
    [PyVal.dict [("content", PyVal.str "hi")]] rfl

theorem dictLookup_setAssoc_self (kvs : List (String × PyVal)) (k : String) (v : PyVal) :
    dictLookup (setAssoc kvs k v) k = some v := by
  induction kvs with
  | nil => simp [setAssoc, dictLookup]
  | cons p rest ih =>
    obtain ⟨k1, v1⟩ := p
    by_cases h : k1 = k
    · simp [setAssoc, h, dictLookup]
    · simp [setAssoc, h, dictLookup, ih]

theorem processEntryBody_priority (entry_id : PyVal) (kvs : List (String × PyVal))
    (t : Trigger) (h : processEntryBody entry_id (.dict kvs) = .trigger t) :
    ∃ q, pyFloatCoerce (dGet kvs "insertion_order" (.int 100)) = .ok q ∧
      t.priority = 100 - q := by
  simp only [processEntryBody] at h
  split at h
  · cases h
  · next rawPos hpos =>
    split at h
    · cases h
    · next q hq =>
      refine ⟨q, hq, ?_⟩
      split at h
      · next ekvs heq =>
        split at h
        · cases h
        · next praw hpraw =>
          split at h
          · cases h
            rfl
          · cases h
      · cases h

/-- C5 counterexample: the spec says a non-numeric `insertion_order` falls
back to the default 100 and the entry still produces a Trigger, but
`float(None)` raises `TypeError`, which the `except ValueError` handler does
not catch, so the outer wrapper drops the whole entry: with
`insertion_order = null` the entry yields no trigger, while the same entry
without the field does yield one. -/
theorem claim_C5_counterexample :
    process_entry (.str "1") (.dict [("insertion_order", PyVal.null)]) = Option.none ∧
    (process_entry (.str "1") (.dict [])).isSome = true := ⟨rfl, rfl⟩

/-- C5 (amended): priority equals `100 - insertion_order` after numeric
coercion; an absent field defaults to 100 so priority is 0; a string that
fails float parsing (ValueError) defaults to 100 and the entry is still
processed; but a value of non-numeric type (TypeError) drops the entry. -/
theorem claim_C5_amended_priority :
    (∀ entry_id kvs t, processEntryBody entry_id (.dict kvs) = .trigger t →
       ∃ q, pyFloatCoerce (dGet kvs "insertion_order" (.int 100)) = .ok q ∧
         t.priority = 100 - q) ∧
    (∀ entry_id kvs t, dictLookup kvs "insertion_order" = Option.none →
       processEntryBody entry_id (.dict kvs) = .trigger t → t.priority = 0) ∧
    (∀ entry_id kvs s, dictLookup kvs "insertion_order" = some (.str s) →
       strToFloat s = Option.none →
       processEntryBody entry_id (.dict kvs) =
         processEntryBody entry_id (.dict (setAssoc kvs "insertion_order" (.int 100)))) ∧
    (∀ entry_id kvs v, dictLookup kvs "insertion_order" = some v →
       pyFloatCoerce v = .typeErr →
       process_entry entry_id (.dict kvs) = Option.none) := by
  refine ⟨fun entry_id kvs t h => processEntryBody_priority entry_id kvs t h, ?_, ?_, ?_⟩
  · intro entry_id kvs t hlk h
    obtain ⟨q, hq, hp⟩ := processEntryBody_priority entry_id kvs t h
    have e2 : dGet kvs "insertion_order" (.int 100) = .int 100 := by
      unfold dGet
      rw [hlk]
      rfl
    rw [e2] at hq
    have h1 : NumCoerce.ok ((100 : Int) : ℚ) = NumCoerce.ok q := hq
    have hq2 : ((100 : Int) : ℚ) = q := NumCoerce.ok.inj h1
    rw [hp, ← hq2]
    norm_num
  · intro entry_id kvs s hlk hs
    have e0 : ∀ k, k ≠ "insertion_order" → ∀ d,
        dGet (setAssoc kvs "insertion_order" (.int 100)) k d = dGet kvs k d := by
      intro k hk d
      unfold dGet
      rw [dictLookup_setAssoc_other]
      intro hc
      exact hk hc.symm
    have e1 : dGet (setAssoc kvs "insertion_order" (.int 100)) "insertion_order" (.int 100)
        = .int 100 := by
      unfold dGet
      rw [dictLookup_setAssoc_self]
      rfl
    have e2 : dGet kvs "insertion_order" (.int 100) = .str s := by
      unfold dGet
      rw [hlk]
      rfl
    have e3 : pyFloatCoerce (dGet kvs "insertion_order" (.int 100)) = .ok 100 := by
      rw [e2]
      simp only [pyFloatCoerce]
      rw [hs]
    have e4 : pyFloatCoerce (dGet (setAssoc kvs "insertion_order" (.int 100))
        "insertion_order" (.int 100)) = .ok 100 := by
      rw [e1]
      show NumCoerce.ok ((100 : Int) : ℚ) = NumCoerce.ok 100
      norm_num
    simp only [processEntryBody]
    rw [e3, e4, e0 "comment" (by decide), e0 "keys" (by decide),
      e0 "secondary_keys" (by decide), e0 "position" (by decide),
      e0 "content" (by decide), e0 "extensions" (by decide), e0 "enabled" (by decide)]
  · intro entry_id kvs v hlk hco
    have e2 : dGet kvs "insertion_order" (.int 100) = v := by
      unfold dGet
      rw [hlk]
      rfl
    unfold process_entry
    simp only [processEntryBody]
    rw [e2, hco]
    cases hpos : convert_position (dGet kvs "position" (.str "after_char")) <;> rfl

/-- C5 witness: the entry `{}` (no `insertion_order`) produces a trigger of
priority 0, by the amended theorem at a concrete input. -/
theorem claim_C5_witness :
    ∃ t, processEntryBody (.str "1") (.dict []) = .trigger t ∧ t.priority = 0 := by
  refine ⟨_, rfl, ?_⟩
  exact claim_C5_amended_priority.2.1 (.str "1") [] _ rfl rfl

/-- C4 counterexample: the spec says the first POPULATED source wins, but
`first_mes` commits by mere key presence: a present-but-empty `first_mes`
shadows a populated `greeting`. -/
theorem claim_C4_counterexample :
    firstMesRaw [("first_mes", PyVal.str ""), ("greeting", PyVal.str "hi")] = .str "" ∧
    pyTruthy (PyVal.str "hi") = true ∧
    extract_character_info [("first_mes", PyVal.str ""), ("greeting", PyVal.str "hi")] =
      "name: " ++ quoteStr "" ++ "\n\nprompt: " ++ quoteStr "" ++
        "\n\nfirst_mes: " ++ quoteStr "" := ⟨rfl, rfl, rfl⟩

/-- C4 (amended): the probe order is first_mes, begin_dialogs, greeting,
example_dialog, char_greeting, alternate_greetings, but `first_mes`,
`begin_dialogs`, `greeting` and `char_greeting` commit by key presence
alone (even when empty); only `example_dialog` and `alternate_greetings`
additionally require a truthy value to stop the chain. -/
theorem claim_C4_amended_probe :
    (∀ kvs v, dictLookup kvs "first_mes" = some v → firstMesRaw kvs = v) ∧
    (∀ kvs bd, dictLookup kvs "first_mes" = Option.none →
       dictLookup kvs "begin_dialogs" = some bd → firstMesRaw kvs = bdValue bd) ∧
    (∀ kvs v, dictLookup kvs "first_mes" = Option.none →
       dictLookup kvs "begin_dialogs" = Option.none →
       dictLookup kvs "greeting" = some v → firstMesRaw kvs = v) ∧
    (∀ kvs ed, dictLookup kvs "first_mes" = Option.none →
       dictLookup kvs "begin_dialogs" = Option.none →
       dictLookup kvs "greeting" = Option.none →
       dictLookup kvs "example_dialog" = some ed → pyTruthy ed = false →
       firstMesRaw kvs = fmCharGreeting kvs) ∧
    (∀ kvs x l, dictLookup kvs "first_mes" = Option.none →
       dictLookup kvs "begin_dialogs" = Option.none →
       dictLookup kvs "greeting" = Option.none →
       dictLookup kvs "example_dialog" = some (.list (x :: l)) →
       firstMesRaw kvs = x) ∧
    (∀ kvs v, dictLookup kvs "char_greeting" = some v → fmCharGreeting kvs = v) ∧
    (∀ kvs x l, dictLookup kvs "char_greeting" = Option.none →
       dictLookup kvs "alternate_greetings" = some (.list (x :: l)) →
       fmCharGreeting kvs = x) := by
  refine ⟨?_, ?_, ?_, ?_, ?_, ?_, ?_⟩
  · intro kvs v h1
    unfold firstMesRaw
    rw [h1]
  · intro kvs bd h1 h2
    unfold firstMesRaw
    rw [h1, h2]
  · intro kvs v h1 h2 h3
    unfold firstMesRaw
    rw [h1, h2, h3]
  · intro kvs ed h1 h2 h3 h4 h5
    unfold firstMesRaw fmExample
    rw [h1, h2, h3, h4]
    simp [h5]
  · intro kvs x l h1 h2 h3 h4
    unfold firstMesRaw fmExample
    rw [h1, h2, h3, h4]
    rfl
  · intro kvs v h1
    unfold fmCharGreeting
    rw [h1]
  · intro kvs x l h1 h2
    unfold fmCharGreeting
    rw [h1, h2]
    rfl

/-- C4 witness: a present-but-falsy `example_dialog` lets the chain reach a
`char_greeting`, by the amended theorem at a concrete document. -/
theorem claim_C4_witness :
    firstMesRaw [("example_dialog", PyVal.str ""), ("char_greeting", PyVal.str "hi")]
      = fmCharGreeting [("example_dialog", PyVal.str ""), ("char_greeting", PyVal.str "hi")] ∧
    fmCharGreeting [("example_dialog", PyVal.str ""), ("char_greeting", PyVal.str "hi")]
      = .str "hi" :=
  ⟨claim_C4_amended_probe.2.2.2.1 _ (PyVal.str "") rfl rfl rfl rfl rfl,
   claim_C4_amended_probe.2.2.2.2.2.1 _ (PyVal.str "hi") rfl⟩
